import Mathlib

/-!
Verification of the Export Master image-extractor core (`src/code.ts`).

Shallow embedding of the plugin's scanning/dedup/fetch pipeline:

* `OperationManager` — the cooperative-cancellation token manager (lines 49–66).
* `detectImageFormat` — the magic-number format sniffer (lines 437–444).
* `sanitizeFileName` — the filename sanitizer (lines 446–453).
* `addUniqueImage` / `checkNodeForImages` / `scanImages` — the chunked
  stack-based tree scanner with dedup by content hash (lines 143–300).
* `fetchImageBytes` — the batched fetcher with per-item retry (lines 302–434).
* `calculateETA`, `getUserFriendlyError` — helpers (lines 455–472).

Modelling conventions:
* JS strings are `String`; `Uint8Array` is `ByteBuf` (a length plus an
  indexing function, the only observations the source makes of a buffer).
* `Date.now()` readings are supplied through explicit time parameters
  (an oracle), since the model is pure.
* Asynchrony collapses: the source runs single-threaded and only re-reads
  the shared `OperationManager` at yield points, so a run during which no
  other task mutates the manager is modelled by passing the manager state
  as an immutable value.
* Unbounded `while` loops are modelled with an explicit fuel that is
  provably sufficient (lemmas below show the fuel-exhausted branch is
  never taken), keeping every definition kernel-computable.
* `figma.ui.postMessage` and `figma.notify` calls are accumulated into an
  ordered event trace.
-/

namespace ExportMaster

/-- CONFIG object (code.ts lines 7–17). -/
def BATCH_SIZE : Nat := 10
def SCAN_CHUNK_SIZE : Nat := 100
def UPDATE_INTERVAL_MS : Nat := 100
def MAX_FILE_SIZE : Nat := 100 * 1024 * 1024
def MIN_ETA_SAMPLES : Nat := 5
def MAX_RETRY_ATTEMPTS : Nat := 3
def RETRY_DELAY_MS : Nat := 100

/-- A `Uint8Array`: the source only ever reads `.length` and individual
indices, so a buffer is a length together with an indexing function. -/
structure ByteBuf where
  len : Nat
  byteAt : Nat → Nat

/-- The format labels of `FetchedImageInfo["format"]` (code.ts line 39).
The source's `"bin"` label is what the spec calls `UNKNOWN`. -/
inductive ImageFormat where
  | JPG | PNG | WEBP | GIF | bin
deriving DecidableEq, Repr

/-- Model of `detectImageFormat` (code.ts lines 437–444). -/
def detectImageFormat (bytes : ByteBuf) : ImageFormat :=
  if bytes.len < 4 then .bin
  else if bytes.byteAt 0 = 0x89 ∧ bytes.byteAt 1 = 0x50 then .PNG
  else if bytes.byteAt 0 = 0xff ∧ bytes.byteAt 1 = 0xd8 then .JPG
  else if bytes.byteAt 0 = 0x52 ∧ bytes.byteAt 1 = 0x49 then .WEBP
  else if bytes.byteAt 0 = 0x47 ∧ bytes.byteAt 1 = 0x49 then .GIF
  else .bin

/-- A character matched by the replacement class
`[<>:"/\\|?*\x00-\x1f]` (code.ts line 449). -/
def isIllegalChar (c : Char) : Bool :=
  c = '<' || c = '>' || c = ':' || c = '"' || c = '/' || c = '\\' ||
  c = '|' || c = '?' || c = '*' || c.toNat ≤ 0x1f

/-- Per-character action of `.replace(/[<>:"/\\|?*\x00-\x1f]/g, "_")`. -/
def replIllegal (c : Char) : Char :=
  if isIllegalChar c then '_' else c

/-- A character removed by JS `String.prototype.trim` (ECMAScript
WhiteSpace or LineTerminator). -/
def isJsWhitespace (c : Char) : Bool :=
  c = ' ' || c = '\t' || c = '\n' || c = '\r' ||
  c.toNat = 0x0b || c.toNat = 0x0c || c.toNat = 0xa0 || c.toNat = 0x1680 ||
  (0x2000 ≤ c.toNat && c.toNat ≤ 0x200a) ||
  c.toNat = 0x2028 || c.toNat = 0x2029 || c.toNat = 0x202f ||
  c.toNat = 0x205f || c.toNat = 0x3000 || c.toNat = 0xfeff

/-- JS `.trim()` on a character list: drop whitespace from the front,
then from the back (`List.rdropWhile p = reverse ∘ dropWhile p ∘ reverse`). -/
def jsTrim (l : List Char) : List Char :=
  List.rdropWhile isJsWhitespace (l.dropWhile isJsWhitespace)

/-- Model of `sanitizeFileName` (code.ts lines 446–453): falsy (empty) input
defaults to `"image"`; otherwise replace illegal characters, trim,
truncate to 255 characters, and default to `"image"` if empty. -/
def sanitizeFileName (name : String) : String :=
  if name.data = [] then "image"
  else
    let out := (jsTrim (name.data.map replIllegal)).take 255
    if out = [] then "image" else String.mk out

/-- Model of `OperationManager` (code.ts lines 49–66): a current id plus a
cancelled flag.  `Date.now()` is passed in explicitly. -/
structure OperationManager where
  id : Nat
  cancelled : Bool
deriving DecidableEq, Repr

/-- Model of `OperationManager.start` (lines 53–57): record `now` as the current
id, clear the cancelled flag, return the new token. -/
def OperationManager.start (_m : OperationManager) (now : Nat) :
    OperationManager × Nat :=
  ({ id := now, cancelled := false }, now)

/-- Model of `OperationManager.cancel` (lines 59–61). -/
def OperationManager.cancel (m : OperationManager) : OperationManager :=
  { m with cancelled := true }

/-- Model of `OperationManager.isActive` (lines 63–65). -/
def OperationManager.isActive (m : OperationManager) (opId : Nat) : Bool :=
  !m.cancelled && m.id == opId

/-- Decimal digit character. -/
def digitChar (d : Nat) : Char := Char.ofNat (48 + d)

/-- Decimal digits of `n`, most significant first; any `fuel ≥ n`
produces the full representation. -/
def natDecimalCore (fuel n : Nat) : List Char :=
  match fuel with
  | 0 => []
  | fuel + 1 =>
    if n = 0 then [] else natDecimalCore fuel (n / 10) ++ [digitChar (n % 10)]

/-- JS number-to-string on a natural, as produced by the template
interpolations in the source (`${counter}`, `${failedCount}`, …). -/
def natDecimal (n : Nat) : String :=
  if n = 0 then "0" else String.mk (natDecimalCore n n)

/-- The template `baseName_counter` of code.ts line 272). -/
def suffixName (base : String) (k : Nat) : String :=
  base ++ "_" ++ natDecimal k

/-- The collision-resolution `while` loop of `addUniqueImage`
(code.ts lines 269–273), with fuel bounding the iteration count;
`resolveName` supplies fuel that is provably never exhausted. -/
def resolveNameAux (base : String) (names : List String) :
    Nat → String → Nat → String
  | 0, current, _ => current
  | fuel + 1, current, counter =>
    if current ∈ names then
      resolveNameAux base names fuel (suffixName base counter) (counter + 1)
    else current

/-- Lines 269–274 of `addUniqueImage`: start from the base name and
append `_1`, `_2`, … until the candidate is absent from `names`. -/
def resolveName (base : String) (names : List String) : String :=
  resolveNameAux base names (names.length + 1) base 1

/-- A fill or stroke paint: its `type` tag and, for image paints, the
optional content-hash reference. -/
structure Paint where
  ptype : String
  imageHash : Option String
deriving DecidableEq, Repr

/-- JS truthiness of `paint.imageHash`: absent (non-image paints) or the
empty string is falsy. -/
def hashTruthy : Option String → Bool
  | none => false
  | some s => s ≠ ""

/-- The predicate of `fills.find(f => f.type === "IMAGE" && f.imageHash)`
(code.ts lines 224, 232, 246). -/
def isImagePaint (p : Paint) : Bool :=
  p.ptype == "IMAGE" && hashTruthy p.imageHash

/-- A scene node: `name`, `type` string, optional array-valued `fills`
and `strokes` (`none` models an absent or non-array — e.g. mixed —
paint list), and children.  A node without a `children` property is
modelled by an empty child list: every use of `children` in the source
(push all, count) treats the two identically. -/
inductive Node where
  | mk (name : String) (ntype : String) (fills strokes : Option (List Paint))
       (children : List Node)

def Node.name : Node → String | .mk n _ _ _ _ => n
def Node.ntype : Node → String | .mk _ t _ _ _ => t
def Node.fills : Node → Option (List Paint) | .mk _ _ f _ _ => f
def Node.strokes : Node → Option (List Paint) | .mk _ _ _ s _ => s
def Node.children : Node → List Node | .mk _ _ _ _ c => c

/-- Total node count of a forest (used only as loop fuel for the scan). -/
def sizeNL : List Node → Nat
  | [] => 0
  | (Node.mk _ _ _ _ cs) :: rest => 1 + sizeNL cs + sizeNL rest

/-- Model of `FoundImageInfo` (code.ts lines 28–32). -/
structure FoundImageInfo where
  hash : String
  name : String
  frame : String
deriving DecidableEq, Repr

/-- Model of `FetchedImageInfo` (code.ts lines 34–43). -/
structure FetchedImageInfo where
  hash : String
  name : String
  frame : String
  bytes : ByteBuf
  format : ImageFormat
  size : Nat
  width : Nat
  height : Nat

/-- A `postMessage` payload field that is a number in some events and a
string in others (`total: "many"`, line 199). -/
inductive NumOrStr where
  | num (q : ℚ)
  | str (s : String)

/-- The outbound traffic of the plugin: every `figma.ui.postMessage`
payload shape that the scanner/fetcher emits, plus `figma.notify`
(`notifyWarning`). -/
inductive Event where
  | selectionChanged (count : Nat)
  | scanProgress (phase : String) (progress : ℚ) (current : Nat) (total : NumOrStr)
  | scanComplete (images : List FoundImageInfo)
  | downloadStart (downloadType : String) (formats : List String)
      (renamePattern : String) (totalImages : Nat)
  | downloadProgress (phase : String) (progress : ℚ) (current total : Nat)
      (eta : Option String)
  | imagesBatchReady (images : List FetchedImageInfo)
  | downloadFinish
  | notifyWarning (message : String)
  | operationCancelled
  | errorMsg (message : String)

/-- One link of a node's ancestor chain: (`parent.name`, `parent.type`). -/
abbrev Ancestor := String × String

/-- A node paired with its ancestor chain, nearest ancestor first, for
the `parent`-walk of `addUniqueImage`. -/
structure ScanCtx where
  node : Node
  ancestors : List Ancestor

/-- The working maps of one scan (code.ts lines 154–155): the
insertion-ordered `Map<string, FoundImageInfo>` (as an association list)
and the `Set<string>` of used names (as a list). -/
structure ScanState where
  uniqueImages : List (String × FoundImageInfo)
  existingNames : List String

/-- JS `Map.has`. -/
def mapHas (m : List (String × FoundImageInfo)) (k : String) : Bool :=
  m.any (fun p => p.1 == k)

/-- JS `Map.set`: update in place if the key exists (keeping insertion
position), otherwise append. -/
def mapSet (m : List (String × FoundImageInfo)) (k : String)
    (v : FoundImageInfo) : List (String × FoundImageInfo) :=
  if mapHas m k then m.map (fun p => if p.1 == k then (k, v) else p)
  else m ++ [(k, v)]

/-- JS `Map.values()` in insertion order (`Array.from(m.values())`). -/
def mapValues (m : List (String × FoundImageInfo)) : List FoundImageInfo :=
  m.map (·.2)

/-- JS `Set.add`. -/
def setAdd (s : List String) (x : String) : List String :=
  if x ∈ s then s else s ++ [x]

/-- Model of line 268: sanitize the node name, defaulting to "image". -/
def baseNameOf (node : Node) : String :=
  let b := sanitizeFileName node.name
  if b = "" then "image" else b

/-- The `parent`-walk of `addUniqueImage` (code.ts lines 276–290) over
the chain starting at the node itself: the first link whose type is
FRAME, COMPONENT, INSTANCE or COMPONENT_SET supplies the sanitized
container name; a PAGE link stops the walk; the default is `"Page"`. -/
def computeFrameName : List Ancestor → String
  | [] => "Page"
  | (nm, t) :: rest =>
    if t = "FRAME" ∨ t = "COMPONENT" ∨ t = "INSTANCE" ∨ t = "COMPONENT_SET"
    then sanitizeFileName nm
    else if t = "PAGE" then "Page"
    else computeFrameName rest

/-- Model of `addUniqueImage` (code.ts lines 257–300).  The `try`/`catch` is
dropped: no step of the pure model can throw. -/
def addUniqueImage (m : OperationManager) (opId : Nat) (imageHash : String)
    (node : Node) (ancestors : List Ancestor) (st : ScanState) : ScanState :=
  if !(m.isActive opId) || mapHas st.uniqueImages imageHash then st
  else
    let baseName := baseNameOf node
    let uniqueName := resolveName baseName st.existingNames
    let frameName := computeFrameName ((node.name, node.ntype) :: ancestors)
    { uniqueImages := mapSet st.uniqueImages imageHash
        { hash := imageHash, name := uniqueName, frame := frameName },
      existingNames := setAdd st.existingNames uniqueName }

/-- Model of `processPaint` (code.ts lines 223–227). -/
def processPaint (m : OperationManager) (opId : Nat) (node : Node)
    (ancestors : List Ancestor) (st : ScanState) (p : Paint) : ScanState :=
  if isImagePaint p then
    addUniqueImage m opId (p.imageHash.getD "") node ancestors st
  else st

/-- Model of `checkNodeForImages` (code.ts lines 215–255): each paint list is
processed (all paints through `processPaint`) only when it contains at
least one image paint with a hash. -/
def checkNodeForImages (m : OperationManager) (opId : Nat) (node : Node)
    (ancestors : List Ancestor) (st : ScanState) : ScanState :=
  if !(m.isActive opId) then st
  else
    let st1 :=
      match node.fills with
      | none => st
      | some fills =>
        if (fills.find? isImagePaint).isSome then
          fills.foldl (processPaint m opId node ancestors) st
        else st
    match node.strokes with
    | none => st1
    | some strokes =>
      if (strokes.find? isImagePaint).isSome then
        strokes.foldl (processPaint m opId node ancestors) st1
      else st1

/-- The contexts pushed for a node's children (code.ts lines 184–188):
reverse-index pushes mean pop order is original child order; with the
head-of-list-is-top-of-stack convention the children sit in original
order in front of the remaining stack. -/
def childCtxs (node : Node) (ancestors : List Ancestor) : List ScanCtx :=
  node.children.map (fun c => ⟨c, (node.name, node.ntype) :: ancestors⟩)

/-- Mutable locals of the scan loop (code.ts lines 156, 169–170), plus
the accumulated events and the index `iter` into the `Date.now()`
oracle (one reading per loop iteration, line 192). -/
structure ScanLoopState where
  st : ScanState
  scannedCount : Nat
  totalEstimated : Nat
  events : List Event
  lastUpdateTime : Nat
  iter : Nat

/-- Body of the inner `for (const node of nodesToProcess)` loop
(code.ts lines 181–189), threading the loop state and the stack. -/
def processOneNode (m : OperationManager) (opId : Nat)
    (acc : ScanLoopState × List ScanCtx) (ctx : ScanCtx) :
    ScanLoopState × List ScanCtx :=
  let st' := checkNodeForImages m opId ctx.node ctx.ancestors acc.1.st
  ({ acc.1 with
      st := st',
      scannedCount := acc.1.scannedCount + 1,
      totalEstimated := acc.1.totalEstimated + ctx.node.children.length },
   childCtxs ctx.node ctx.ancestors ++ acc.2)

/-- The scan `while` loop (code.ts lines 172–204), fuel-indexed.  The
`Bool` is `true` iff the loop drained the stack; `false` means it was
abandoned (inactive token at an iteration head — the silent `return` of
line 173 — or exhausted fuel, which the fuel chosen by `scanImages`
never reaches on an active run). -/
def scanLoop (m : OperationManager) (opId : Nat) (times : Nat → Nat) :
    Nat → List ScanCtx → ScanLoopState → ScanLoopState × Bool
  | _, [], ls => (ls, true)
  | 0, _ :: _, ls => (ls, false)
  | fuel + 1, stack@(_ :: _), ls =>
    if !(m.isActive opId) then (ls, false)
    else
      let chunkLimit := min stack.length SCAN_CHUNK_SIZE
      let nodesToProcess := stack.take chunkLimit
      let rest := stack.drop chunkLimit
      let step := nodesToProcess.foldl (processOneNode m opId) (ls, rest)
      let ls1 := step.1
      let now := times ls1.iter
      let ls2 :=
        if now - ls1.lastUpdateTime > UPDATE_INTERVAL_MS then
          { ls1 with
            events := ls1.events ++
              [.scanProgress
                ("Scanning... (" ++ natDecimal ls1.st.uniqueImages.length ++ " found)")
                (min 95 ((ls1.scannedCount : ℚ) / (ls1.totalEstimated : ℚ) * 100))
                ls1.scannedCount (.str "many")],
            lastUpdateTime := now,
            iter := ls1.iter + 1 }
        else { ls1 with iter := ls1.iter + 1 }
      scanLoop m opId times fuel step.2 ls2

/-- Result of a `scanImages` run: the ordered event trace, the thrown
error message if any, and the list assigned to the global `foundImages`
(line 206) when the loop completed. -/
structure ScanOut where
  events : List Event
  error : Option String
  published : Option (List FoundImageInfo)

/-- Model of `scanImages` (code.ts lines 143–213).  `selection` and
`pageChildren` carry each potential root node with its ancestor chain
(for `figma.currentPage.children` the chain is just the page link);
`times`/`t0` are the `Date.now()` oracle.  `fuel` bounds the loop
iterations of the model: the source loop is bounded only by the tree,
and `scanLoop_completes` below shows that any
`fuel ≥ sizeNL (node stack) + 1` drains the stack on an active run, so
the model with such fuel is the source's behaviour. -/
def scanImages (m : OperationManager) (opId : Nat) (scanMode : String)
    (selection pageChildren : List ScanCtx) (times : Nat → Nat) (t0 : Nat)
    (fuel : Nat) : ScanOut :=
  if !(m.isActive opId) then { events := [], error := none, published := none }
  else
    let ev0 : List Event := [.scanProgress "Starting scan..." 0 0 (.num 100)]
    if scanMode = "selected" ∧ selection.length = 0 then
      { events := ev0,
        error := some "No frames selected. Please select frames first.",
        published := none }
    else
      let startNodes := if scanMode = "selected" then selection else pageChildren
      let stack := startNodes.reverse
      let ls0 : ScanLoopState :=
        { st := { uniqueImages := [], existingNames := [] },
          scannedCount := 0, totalEstimated := startNodes.length * 5,
          events := ev0, lastUpdateTime := t0, iter := 0 }
      let res := scanLoop m opId times fuel stack ls0
      if res.2 then
        let found := mapValues res.1.st.uniqueImages
        if m.isActive opId then
          { events := res.1.events ++ [.scanComplete found], error := none,
            published := some found }
        else
          { events := res.1.events, error := none, published := some found }
      else { events := res.1.events, error := none, published := none }

/-- A single registration request passed to `addUniqueImage`: a hash
together with the node (and ancestor chain) that carried it. -/
structure Candidate where
  hash : String
  node : Node
  ancestors : List Ancestor

/-- The hashes handed to `addUniqueImage` by one `forEach(processPaint)`
pass, in paint order. -/
def paintHashes (paints : List Paint) : List String :=
  paints.filterMap
    (fun p => if isImagePaint p then some (p.imageHash.getD "") else none)

/-- The hash candidates one node contributes, in processing order
(fills pass then strokes pass), under the same guards as
`checkNodeForImages`. -/
def nodeCandidates (node : Node) : List String :=
  (match node.fills with
   | none => []
   | some fills =>
     if (fills.find? isImagePaint).isSome then paintHashes fills else []) ++
  (match node.strokes with
   | none => []
   | some strokes =>
     if (strokes.find? isImagePaint).isSome then paintHashes strokes else [])

/-- The candidates one visited context contributes. -/
def ctxCandidates (ctx : ScanCtx) : List Candidate :=
  (nodeCandidates ctx.node).map (fun h => ⟨h, ctx.node, ctx.ancestors⟩)

/-- The node-visit order of the chunked scan loop (same chunk and stack
arithmetic as `scanLoop`). -/
def scanOrder (m : OperationManager) (opId : Nat) :
    Nat → List ScanCtx → List ScanCtx
  | _, [] => []
  | 0, _ :: _ => []
  | fuel + 1, stack@(_ :: _) =>
    if !(m.isActive opId) then []
    else
      let chunkLimit := min stack.length SCAN_CHUNK_SIZE
      let chunk := stack.take chunkLimit
      let newStack := chunk.foldl
        (fun acc c => childCtxs c.node c.ancestors ++ acc) (stack.drop chunkLimit)
      chunk ++ scanOrder m opId fuel newStack

/-- All registration candidates of a scan, in the order `addUniqueImage`
receives them ("traversal order"). -/
def scanCands (m : OperationManager) (opId : Nat) (fuel : Nat)
    (stack : List ScanCtx) : List Candidate :=
  ((scanOrder m opId fuel stack).map ctxCandidates).flatten

/-- One `addUniqueImage` step on a candidate. -/
def addCand (m : OperationManager) (opId : Nat) (st : ScanState)
    (c : Candidate) : ScanState :=
  addUniqueImage m opId c.hash c.node c.ancestors st

/-- Folding the registration steps over a candidate list. -/
def scanFold (m : OperationManager) (opId : Nat) (cands : List Candidate)
    (st : ScanState) : ScanState :=
  cands.foldl (addCand m opId) st

/-- Spec-side statement of "first occurrence wins": keep each hash's
first occurrence, drop every later duplicate. -/
def firstOccurrenceDedup : List String → List String
  | [] => []
  | h :: t => h :: firstOccurrenceDedup (t.filter (fun x => x ≠ h))
termination_by l => l.length
decreasing_by
  simp only [List.length_cons]
  exact Nat.lt_succ_of_le (List.length_filter_le _ _)

/-- First-occurrence dedup relative to an already-seen set (the loop
invariant form of `firstOccurrenceDedup`). -/
def firstNewHashes (seen : List String) : List String → List String
  | [] => []
  | h :: t =>
    if h ∈ seen then firstNewHashes seen t
    else h :: firstNewHashes (seen ++ [h]) t

/-- Model of `calculateETA` (code.ts lines 455–462), over exact rationals
(the float arithmetic of the source carries no claim here; JS
`Math.round` is `⌊x + 1/2⌋`, which is Mathlib's `round`). -/
def calculateETA (current total : Nat) (elapsed : ℚ) : String :=
  if current < MIN_ETA_SAMPLES then "Calculating..."
  else
    let rate : ℚ := (current : ℚ) / elapsed
    let remainingS : ℚ := ((total : ℚ) - (current : ℚ)) / rate / 1000
    if remainingS < 1 then "~0s"
    else if remainingS < 60 then "~" ++ natDecimal (round remainingS).toNat ++ "s"
    else
      "~" ++ natDecimal ⌊remainingS / 60⌋.toNat ++ "m " ++
        natDecimal (round (remainingS - 60 * ⌊remainingS / 60⌋)).toNat ++ "s"

/-- The host surface the fetcher consumes: `figma.getImageByHash`
(`none` = unresolvable hash) plus `getSizeAsync`/`getBytesAsync`. -/
structure HostImage where
  width : Nat
  height : Nat
  bytes : ByteBuf

/-- One `try` body of the retry loop (code.ts lines 342–360): resolve
the hash, fetch size and bytes, enforce the size ceiling, sniff the
format, and package the `FetchedImageInfo`. -/
def fetchAttempt (host : String → Option HostImage) (info : FoundImageInfo) :
    Except String FetchedImageInfo :=
  match host info.hash with
  | none => .error "Image not found in Figma document."
  | some img =>
    if img.bytes.len > MAX_FILE_SIZE then
      .error ("Image too large (> " ++ natDecimal (MAX_FILE_SIZE / 1024 / 1024) ++ "MB)")
    else
      .ok { hash := info.hash, name := info.name, frame := info.frame,
            bytes := img.bytes, format := detectImageFormat img.bytes,
            size := img.bytes.len, width := img.width, height := img.height }

/-- The per-item retry `for` loop (code.ts lines 340–381): `remaining`
counts the attempts left after the current one
(`MAX_RETRY_ATTEMPTS - attempt`), so `remaining = 0` is the final
attempt, whose failure is re-thrown wrapped. -/
def fetchRetry (host : String → Option HostImage) (m : OperationManager)
    (opId : Nat) (info : FoundImageInfo) :
    Nat → Except String FetchedImageInfo
  | 0 => .error "Exited retry loop without success."
  | remaining + 1 =>
    match fetchAttempt host info with
    | .ok v => .ok v
    | .error e =>
      if remaining = 0 then
        .error ("Failed to fetch after " ++ natDecimal MAX_RETRY_ATTEMPTS ++
          " attempts: " ++ e)
      else if !(m.isActive opId) then .error "Operation cancelled during retry"
      else fetchRetry host m opId info remaining

/-- The complete per-item fetch (retry loop entered at attempt 1). -/
def fetchOne (host : String → Option HostImage) (m : OperationManager)
    (opId : Nat) (info : FoundImageInfo) : Except String FetchedImageInfo :=
  fetchRetry host m opId info MAX_RETRY_ATTEMPTS

/-- The batch `for` loop of `fetchImageBytes` (code.ts lines 329–414),
fuel-indexed (the fuel `fetchImageBytes` passes is provably never
exhausted).  Arguments after the fuel: remaining images, the loop index
`i`, the batch index into the elapsed-time oracle, the running
`failedCount`, and the event trace.  Returns the trace, the final
`failedCount`, and the thrown error if the token went inactive at a
batch boundary (line 331). -/
def fetchLoop (host : String → Option HostImage) (m : OperationManager)
    (opId : Nat) (total : Nat) (elapsedOf : Nat → ℚ) :
    Nat → List FoundImageInfo → Nat → Nat → Nat → List Event →
    List Event × Nat × Option String
  | _, [], _, _, failedCount, events => (events, failedCount, none)
  | 0, _ :: _, _, _, failedCount, events => (events, failedCount, none)
  | fuel + 1, remaining@(_ :: _), i, batchIdx, failedCount, events =>
    if !(m.isActive opId) then (events, failedCount, some "Operation cancelled")
    else
      let batch := remaining.take BATCH_SIZE
      let results := batch.map (fetchOne host m opId)
      let fetchedBatch := results.filterMap Except.toOption
      let failed' := failedCount + results.countP (fun r => !r.toBool)
      let ev1 :=
        if fetchedBatch.length > 0 then events ++ [.imagesBatchReady fetchedBatch]
        else events
      let processed := min (i + BATCH_SIZE) total
      let ev2 := ev1 ++
        [.downloadProgress "Fetching image data..."
          ((processed : ℚ) / (total : ℚ) * 100) processed total
          (some (calculateETA processed total (elapsedOf batchIdx)))]
      fetchLoop host m opId total elapsedOf fuel (remaining.drop BATCH_SIZE)
        (i + BATCH_SIZE) (batchIdx + 1) failed' ev2

/-- Result of a `fetchImageBytes` run. -/
structure FetchOut where
  events : List Event
  error : Option String
  failedCount : Nat

/-- The aggregated warning text of `figma.notify` (code.ts line 417). -/
def warningText (failedCount : Nat) : String :=
  "Warning: " ++ natDecimal failedCount ++
    " images failed to download or were too large, even after retries. Max size is " ++
    natDecimal (MAX_FILE_SIZE / 1024 / 1024) ++ "MB."

/-- Model of `fetchImageBytes` (code.ts lines 302–434). `downloadType`,
`formats` and `renamePattern` are the pass-through fields of the
caller's message; `elapsedOf` is the `Date.now() - startTime` oracle,
one reading per batch. -/
def fetchImageBytes (host : String → Option HostImage) (m : OperationManager)
    (opId : Nat) (images : List FoundImageInfo) (downloadType : String)
    (formats : List String) (renamePattern : String) (elapsedOf : Nat → ℚ) :
    FetchOut :=
  if !(m.isActive opId) then { events := [], error := none, failedCount := 0 }
  else
    let total := images.length
    let ev0 : List Event :=
      [.downloadProgress "Preparing..." 0 0 total none,
       .downloadStart downloadType formats renamePattern total]
    match fetchLoop host m opId total elapsedOf (total + 1) images 0 0 0 ev0 with
    | (events, failedCount, some err) =>
      { events := events, error := some err, failedCount := failedCount }
    | (events, failedCount, none) =>
      let ev1 :=
        if failedCount > 0 then events ++ [.notifyWarning (warningText failedCount)]
        else events
      if m.isActive opId then
        { events := ev1 ++
            [.downloadProgress "Sending data to UI..." 100 (total - failedCount)
              total (some "Done"),
             .downloadFinish],
          error := none, failedCount := failedCount }
      else { events := ev1, error := none, failedCount := failedCount }

/-- Substring test on character lists (JS `String.includes`). -/
def listIsInfixOf (pat : List Char) : List Char → Bool
  | [] => pat.isEmpty
  | l@(_ :: t) => pat.isPrefixOf l || listIsInfixOf pat t

/-- JS `message.includes(pat)`. -/
def strIncludes (s pat : String) : Bool :=
  listIsInfixOf pat.data s.data

/-- Model of `getUserFriendlyError` (code.ts lines 464–472) on an error message. -/
def getUserFriendlyError (message : String) : String :=
  if strIncludes message "frames selected" then
    "Please select the frames you want to scan, or switch to 'Entire Page' mode."
  else if strIncludes message "Operation cancelled" then
    "The operation was manually cancelled."
  else message

/-- The `FoundImageInfo` that `addUniqueImage` inserts for a candidate
processed against state `st` (code.ts lines 268–296). -/
def candEntry (st : ScanState) (c : Candidate) : FoundImageInfo :=
  { hash := c.hash,
    name := resolveName (baseNameOf c.node) st.existingNames,
    frame := computeFrameName ((c.node.name, c.node.ntype) :: c.ancestors) }

/-- The node types accepted by the container walk (code.ts lines
279–284). -/
def isContainerType (t : String) : Bool :=
  t == "FRAME" || t == "COMPONENT" || t == "INSTANCE" || t == "COMPONENT_SET"

/-- A walk link that stops the container walk: a container type or the
page boundary. -/
def stopsWalk (a : Ancestor) : Bool :=
  isContainerType a.2 || a.2 == "PAGE"

/-- The container rule exactly as claim C7 words it (spec-side, for
refutation): the nearest strictly-enclosing ancestor whose type is
frame, component or component-set — the node itself excluded, INSTANCE
not accepted — with the page-level fallback. -/
def claimedContainerName : List Ancestor → String
  | [] => "Page"
  | (nm, t) :: rest =>
    if t = "FRAME" ∨ t = "COMPONENT" ∨ t = "COMPONENT_SET" then sanitizeFileName nm
    else if t = "PAGE" then "Page"
    else claimedContainerName rest

/-- Event-shape discriminators (payload predicates used to state trace
properties; they inspect constructors only). -/
def Event.isScanProgress : Event → Bool
  | .scanProgress _ _ _ _ => true
  | _ => false

def Event.isScanComplete : Event → Bool
  | .scanComplete _ => true
  | _ => false

def Event.isBatchReady : Event → Bool
  | .imagesBatchReady _ => true
  | _ => false

def Event.isNotifyWarning : Event → Bool
  | .notifyWarning _ => true
  | _ => false

def Event.isDownloadFinish : Event → Bool
  | .downloadFinish => true
  | _ => false

/-- The per-batch progress events of the fetch loop (phase string of
code.ts line 405). -/
def Event.isFetchingProgress : Event → Bool
  | .downloadProgress "Fetching image data..." _ _ _ _ => true
  | _ => false

/-- Payload of an `imagesBatchReady` event. -/
def Event.batchImages : Event → List FetchedImageInfo
  | .imagesBatchReady l => l
  | _ => []

/-- Whether `hash` resolves to an image whose encoded size exceeds the
ceiling (the condition of code.ts line 348, keyed by hash). -/
def oversizeHost (host : String → Option HostImage) (hash : String) : Bool :=
  match host hash with
  | none => false
  | some img => img.bytes.len > MAX_FILE_SIZE

/-- The batches `fetchImageBytes` slices (code.ts lines 329, 333). -/
def chunksOf : Nat → List FoundImageInfo → List (List FoundImageInfo)
  | _, [] => []
  | 0, _ :: _ => []
  | fuel + 1, l@(_ :: _) => l.take BATCH_SIZE :: chunksOf fuel (l.drop BATCH_SIZE)

/-- The event block the fetch batch loop appends (same chunking as
`fetchLoop`; used to state trace structure). -/
def batchEvents (host : String → Option HostImage) (m : OperationManager)
    (opId : Nat) (total : Nat) (elapsedOf : Nat → ℚ) :
    Nat → List FoundImageInfo → Nat → Nat → List Event
  | _, [], _, _ => []
  | 0, _ :: _, _, _ => []
  | fuel + 1, remaining@(_ :: _), i, batchIdx =>
    let batch := remaining.take BATCH_SIZE
    let results := batch.map (fetchOne host m opId)
    let fetchedBatch := results.filterMap Except.toOption
    let processed := min (i + BATCH_SIZE) total
    (if fetchedBatch.length > 0 then [.imagesBatchReady fetchedBatch] else []) ++
    ([.downloadProgress "Fetching image data..."
        ((processed : ℚ) / (total : ℚ) * 100) processed total
        (some (calculateETA processed total (elapsedOf batchIdx)))] ++
      batchEvents host m opId total elapsedOf fuel (remaining.drop BATCH_SIZE)
        (i + BATCH_SIZE) (batchIdx + 1))

/-! Concrete sample data used by witnesses and counterexamples. -/

/-- A manager in the state right after `start()` returned token 7. -/
def sampleMgr : OperationManager := ⟨7, false⟩

/-- C5 counterexample input: 262 characters, whitespace in the middle,
so that the 255-truncation leaves trailing whitespace behind. -/
def longName : String := String.mk ('a' :: (List.replicate 260 ' ' ++ ['b']))

/-- The claim-C7 scenario: a child "Icon" with an image fill, nested two
levels (via a plain group) inside a frame "Hero" that has 3 children. -/
def iconNode : Node := .mk "Icon" "RECTANGLE" (some [⟨"IMAGE", some "H1"⟩]) none []
def groupNode : Node := .mk "Group" "GROUP" none none [iconNode]
def sibNode1 : Node := .mk "Sib1" "TEXT" none none []
def sibNode2 : Node := .mk "Sib2" "TEXT" none none []
def heroNode : Node := .mk "Hero" "FRAME" none none [groupNode, sibNode1, sibNode2]

/-- C2 counterexample inputs: two nodes named "a", then one named "a_1"
(each with a distinct image hash). -/
def nodeA1 : Node := .mk "a" "RECTANGLE" (some [⟨"IMAGE", some "h1"⟩]) none []
def nodeA2 : Node := .mk "a" "RECTANGLE" (some [⟨"IMAGE", some "h2"⟩]) none []
def nodeA3 : Node := .mk "a_1" "RECTANGLE" (some [⟨"IMAGE", some "h3"⟩]) none []
def collisionFrame : Node := .mk "F" "FRAME" none none [nodeA1, nodeA2, nodeA3]

/-- C7 counterexample input: the image-filled node is itself an INSTANCE
sitting directly inside the frame "Hero". -/
def instNode : Node := .mk "Inst" "INSTANCE" (some [⟨"IMAGE", some "H9"⟩]) none []
def heroFrame2 : Node := .mk "Hero" "FRAME" none none [instNode]

/-- C1 witness input: two sibling nodes referencing the same hash. -/
def dupNodeA : Node := .mk "A" "RECTANGLE" (some [⟨"IMAGE", some "H1"⟩]) none []
def dupNodeB : Node := .mk "B" "RECTANGLE" (some [⟨"IMAGE", some "H1"⟩]) none []
def dupFrame : Node := .mk "F" "FRAME" none none [dupNodeA, dupNodeB]

/-- Fetch sample data: one well-formed PNG-signature image and one whose
byte length exceeds the 100 MB ceiling by one byte. -/
def smallBuf : ByteBuf := ⟨4, fun i => if i = 0 then 0x89 else if i = 1 then 0x50 else 0⟩
def bigBuf : ByteBuf := ⟨MAX_FILE_SIZE + 1, fun _ => 0⟩
def sampleHost : String → Option HostImage := fun h =>
  if h = "hA" then some ⟨10, 20, smallBuf⟩
  else if h = "hB" then some ⟨1, 1, bigBuf⟩
  else none
def sampleImgA : FoundImageInfo := ⟨"hA", "a", "F"⟩
def sampleImgB : FoundImageInfo := ⟨"hB", "b", "F"⟩

/-- Decimal value of a digit string (proof-layer left inverse of
`natDecimal`). -/
def decVal (l : List Char) : Nat :=
  l.foldl (fun a c => a * 10 + (c.toNat - 48)) 0

/-- Invariants of the scan working state: every map entry's `hash`
field is its key, keys are pairwise distinct, every entry's name is in
the name set, and entry names are pairwise distinct. -/
structure ScanInv (st : ScanState) : Prop where
  hashKey : ∀ p ∈ st.uniqueImages, p.2.hash = p.1
  keyNodup : (st.uniqueImages.map Prod.fst).Nodup
  nameMem : ∀ p ∈ st.uniqueImages, p.2.name ∈ st.existingNames
  nameNodup : (st.uniqueImages.map (fun p => p.2.name)).Nodup

/-- Whether the per-item fetch of `info` fails (all retries exhausted or
the hash unresolvable/oversize). -/
def fetchFails (host : String → Option HostImage) (m : OperationManager)
    (opId : Nat) (info : FoundImageInfo) : Bool :=
  !(fetchOne host m opId info).toBool

/-! ## Sanitizer lemmas -/

theorem replIllegal_replIllegal (c : Char) :
    replIllegal (replIllegal c) = replIllegal c := by
  cases hc : isIllegalChar c with
  | true => simp only [replIllegal, hc, if_true]; decide
  | false => simp [replIllegal, hc]

theorem rdropWhile_decomp (p : Char → Bool) (l : List Char) :
    ∃ t, List.rdropWhile p l ++ t = l := by
  obtain ⟨s, hs⟩ := (List.dropWhile_suffix p : _ <:+ l.reverse)
  refine ⟨s.reverse, ?_⟩
  have h2 := congrArg List.reverse hs
  rw [List.reverse_append, List.reverse_reverse] at h2
  simpa [List.rdropWhile] using h2

theorem jsTrim_subset (l : List Char) : jsTrim l ⊆ l := by
  intro c hc
  obtain ⟨t, ht⟩ := rdropWhile_decomp isJsWhitespace (l.dropWhile isJsWhitespace)
  have hc2 : c ∈ l.dropWhile isJsWhitespace := ht ▸ List.mem_append_left t hc
  exact (List.dropWhile_sublist _).subset hc2

theorem jsTrim_length_le (l : List Char) : (jsTrim l).length ≤ l.length := by
  obtain ⟨t, ht⟩ := rdropWhile_decomp isJsWhitespace (l.dropWhile isJsWhitespace)
  have h1 : (List.rdropWhile isJsWhitespace (l.dropWhile isJsWhitespace)).length
      ≤ (l.dropWhile isJsWhitespace).length := by
    conv_rhs => rw [← ht]
    rw [List.length_append]
    exact Nat.le_add_right _ _
  exact le_trans h1 (List.dropWhile_sublist _).length_le

theorem dropWhile_head_false {p : Char → Bool} :
    ∀ {l r : List Char} {c : Char}, l.dropWhile p = c :: r → p c = false := by
  intro l
  induction l with
  | nil => intro r c h; simp [List.dropWhile] at h
  | cons a t ih =>
    intro r c h
    rw [List.dropWhile_cons] at h
    cases ha : p a with
    | true => rw [ha] at h; simp only [if_true] at h; exact ih h
    | false =>
      rw [ha] at h
      simp only [Bool.false_eq_true, if_false, List.cons.injEq] at h
      exact h.1 ▸ ha

theorem jsTrim_idem (l : List Char) : jsTrim (jsTrim l) = jsTrim l := by
  unfold jsTrim
  have hdrop : (List.rdropWhile isJsWhitespace (l.dropWhile isJsWhitespace)).dropWhile
      isJsWhitespace = List.rdropWhile isJsWhitespace (l.dropWhile isJsWhitespace) := by
    obtain ⟨t, ht⟩ := rdropWhile_decomp isJsWhitespace (l.dropWhile isJsWhitespace)
    cases hT : List.rdropWhile isJsWhitespace (l.dropWhile isJsWhitespace) with
    | nil => simp
    | cons c T' =>
      rw [hT] at ht
      have hc : isJsWhitespace c = false :=
        dropWhile_head_false (r := T' ++ t) (by simpa using ht.symm)
      rw [List.dropWhile_cons, hc]
      simp
  rw [hdrop, List.rdropWhile_idempotent]

theorem map_replIllegal_self (l : List Char) (h : ∀ c ∈ l, replIllegal c = c) :
    l.map replIllegal = l := by
  induction l with
  | nil => rfl
  | cons c t ih =>
    simp only [List.map_cons, h c (List.mem_cons_self c t),
      ih (fun x hx => h x (List.mem_cons_of_mem c hx))]

theorem sanitize_fixed (y : List Char) (hne : y ≠ [])
    (hchars : ∀ c ∈ y, replIllegal c = c) (htrim : jsTrim y = y)
    (hlen : y.length ≤ 255) :
    sanitizeFileName (String.mk y) = String.mk y := by
  unfold sanitizeFileName
  simp only [hne, if_false]
  rw [map_replIllegal_self y hchars, htrim, List.take_of_length_le hlen]
  simp [hne]

/-! ## C5: sanitize idempotence -/

set_option maxRecDepth 20000 in
/-- Claim C5 counterexample. —  On the 262-character input `longName`
("a", 260 spaces, "b") a single `sanitizeFileName` pass truncates to
"a" followed by 254 spaces — the truncation exposes trailing whitespace
that a second pass trims away, so `sanitize` is *not* idempotent as
claimed. -/
theorem sanitize_not_idempotent_counterexample :
    sanitizeFileName (sanitizeFileName longName) ≠ sanitizeFileName longName := by
  decide

/-- Claim C5 (amended). —  `sanitizeFileName` is idempotent on every input
of at most 255 characters (for longer inputs the 255-character
truncation can leave trailing whitespace that only the second pass
trims, as the counterexample shows). -/
theorem sanitize_idempotent_short (s : String) (h : s.data.length ≤ 255) :
    sanitizeFileName (sanitizeFileName s) = sanitizeFileName s := by
  by_cases hs : s.data = []
  · have himg : sanitizeFileName s = "image" := by unfold sanitizeFileName; simp [hs]
    rw [himg]; decide
  · have hylen : (jsTrim (s.data.map replIllegal)).length ≤ 255 :=
      le_trans (le_trans (jsTrim_length_le _) (by rw [List.length_map])) h
    have hytake : (jsTrim (s.data.map replIllegal)).take 255
        = jsTrim (s.data.map replIllegal) :=
      List.take_of_length_le hylen
    by_cases hyempty : jsTrim (s.data.map replIllegal) = []
    · have himg : sanitizeFileName s = "image" := by
        unfold sanitizeFileName; simp [hs, hytake, hyempty]
      rw [himg]; decide
    · have hsan : sanitizeFileName s = String.mk (jsTrim (s.data.map replIllegal)) := by
        unfold sanitizeFileName; simp [hs, hytake, hyempty]
      rw [hsan]
      refine sanitize_fixed _ hyempty ?_ (jsTrim_idem _) hylen
      intro c hc
      obtain ⟨c', -, rfl⟩ := List.mem_map.mp (jsTrim_subset _ hc)
      exact replIllegal_replIllegal c'

/-- Claim C5 witness —: the amended idempotence applied at the concrete
input `"  he<l>lo  "` (11 characters). -/
theorem sanitize_idempotent_short_witness :
    "  he<l>lo  ".data.length ≤ 255 ∧
      sanitizeFileName (sanitizeFileName "  he<l>lo  ")
        = sanitizeFileName "  he<l>lo  " :=
  ⟨by decide, sanitize_idempotent_short "  he<l>lo  " (by decide)⟩

/-! ## C6 / C9: format sniffer -/

/-- Claim C6. —  `detectImageFormat` is a (deterministic, total) function
into the five labels, `UNKNOWN` being the source's `"bin"`: any buffer
shorter than 4 bytes is `bin`; otherwise the first two bytes select
PNG (0x89 0x50), JPG (0xFF 0xD8), WEBP (0x52 0x49) or GIF (0x47 0x49),
and anything else is `bin`. -/
theorem detect_total_deterministic (b : ByteBuf) :
    (detectImageFormat b = .PNG ∨ detectImageFormat b = .JPG ∨
     detectImageFormat b = .WEBP ∨ detectImageFormat b = .GIF ∨
     detectImageFormat b = .bin) ∧
    (b.len < 4 → detectImageFormat b = .bin) ∧
    (4 ≤ b.len → b.byteAt 0 = 0x89 → b.byteAt 1 = 0x50 → detectImageFormat b = .PNG) ∧
    (4 ≤ b.len → b.byteAt 0 = 0xff → b.byteAt 1 = 0xd8 → detectImageFormat b = .JPG) ∧
    (4 ≤ b.len → b.byteAt 0 = 0x52 → b.byteAt 1 = 0x49 → detectImageFormat b = .WEBP) ∧
    (4 ≤ b.len → b.byteAt 0 = 0x47 → b.byteAt 1 = 0x49 → detectImageFormat b = .GIF) ∧
    (4 ≤ b.len →
      ¬(b.byteAt 0 = 0x89 ∧ b.byteAt 1 = 0x50) →
      ¬(b.byteAt 0 = 0xff ∧ b.byteAt 1 = 0xd8) →
      ¬(b.byteAt 0 = 0x52 ∧ b.byteAt 1 = 0x49) →
      ¬(b.byteAt 0 = 0x47 ∧ b.byteAt 1 = 0x49) →
      detectImageFormat b = .bin) := by
  unfold detectImageFormat
  by_cases h4 : b.len < 4
  · simp [h4]
  · simp only [h4, if_false]
    split_ifs with h1 h2 h3 h5 <;>
      refine ⟨by simp, fun hlt => hlt.elim, ?_, ?_, ?_, ?_, ?_⟩ <;>
        intros <;> simp_all

/-- Claim C6 witness —: the theorem applied at the 4-byte PNG-signature
buffer `smallBuf`. -/
theorem detect_total_deterministic_witness :
    4 ≤ smallBuf.len ∧ detectImageFormat smallBuf = .PNG :=
  ⟨by decide,
    (detect_total_deterministic smallBuf).2.2.1 (by decide) (by decide) (by decide)⟩

/-- Claim C9. —  For buffers of length ≥ 4 the sniffer reads only bytes 0
and 1 (so any two such buffers agreeing there classify identically); a
length ≥ 4 buffer starting 0x52 0x49 is WEBP whatever its other bytes;
a buffer of ≤ 3 bytes is `bin` even with a matching two-byte prefix. -/
theorem detect_first_two_bytes (b c : ByteBuf) :
    (4 ≤ b.len → 4 ≤ c.len → b.byteAt 0 = c.byteAt 0 → b.byteAt 1 = c.byteAt 1 →
      detectImageFormat b = detectImageFormat c) ∧
    (4 ≤ b.len → b.byteAt 0 = 0x52 → b.byteAt 1 = 0x49 →
      detectImageFormat b = .WEBP) ∧
    (b.len ≤ 3 → detectImageFormat b = .bin) := by
  refine ⟨fun hb hc h0 h1 => ?_, fun hb h0 h1 => ?_, fun h3 => ?_⟩
  · unfold detectImageFormat
    rw [h0, h1]
    simp [Nat.not_lt_of_le hb, Nat.not_lt_of_le hc]
  · unfold detectImageFormat
    rw [h0, h1]
    simp [Nat.not_lt_of_le hb]
  · unfold detectImageFormat
    have : b.len < 4 := by omega
    simp [this]

/-- Claim C9 witness —: applied at `smallBuf` paired with a buffer that has
the same first two bytes but longer length and different tail. -/
theorem detect_first_two_bytes_witness :
    4 ≤ smallBuf.len ∧ 4 ≤ (ByteBuf.mk 9 (fun i => if i = 0 then 0x89 else if i = 1 then 0x50 else 7)).len ∧
      detectImageFormat smallBuf
        = detectImageFormat (ByteBuf.mk 9 (fun i => if i = 0 then 0x89 else if i = 1 then 0x50 else 7)) :=
  ⟨by decide, by decide,
    (detect_first_two_bytes smallBuf _).1 (by decide) (by decide) (by decide) (by decide)⟩

/-! ## C3: operation tokens -/

/-- Claim C3. —  Starting a new operation that returns a different token
immediately deactivates the old token, and at most one token is active
in any manager state (`isActive a` and `isActive b` force `a = b`). -/
theorem token_supersession_single_active (m : OperationManager) (t1 t2 : Nat)
    (hNew : ((m.start t1).1.start t2).2 ≠ (m.start t1).2) :
    ((m.start t1).1.start t2).1.isActive (m.start t1).2 = false ∧
    ∀ (m' : OperationManager) (a b : Nat),
      m'.isActive a = true → m'.isActive b = true → a = b := by
  constructor
  · simp only [OperationManager.start, OperationManager.isActive] at hNew ⊢
    simp [beq_iff_eq, hNew]
  · intro m' a b ha hb
    simp only [OperationManager.isActive, Bool.and_eq_true, beq_iff_eq] at ha hb
    omega

/-- Claim C3 witness —: the theorem applied to a fresh manager with tokens
1 then 2. -/
theorem token_supersession_single_active_witness :
    (((OperationManager.mk 0 false).start 1).1.start 2).2 ≠
        (((OperationManager.mk 0 false).start 1)).2 ∧
      (((OperationManager.mk 0 false).start 1).1.start 2).1.isActive
        (((OperationManager.mk 0 false).start 1)).2 = false :=
  ⟨by decide, (token_supersession_single_active ⟨0, false⟩ 1 2 (by decide)).1⟩

/-! ## C4: empty-selection scan -/

/-- Claim C4 counterexample. —  A selection-mode scan with an empty
selection does throw the no-selection error, but only *after* posting
the initial "Starting scan..." progress event (code.ts lines 146–152
run before the check at lines 159–163) — refuting "emits no progress
event before failing". -/
theorem empty_selection_progress_event_counterexample :
    (scanImages sampleMgr 7 "selected" [] [] (fun _ => 0) 0 1).error
        = some "No frames selected. Please select frames first." ∧
      (scanImages sampleMgr 7 "selected" [] [] (fun _ => 0) 0 1).events.countP
        Event.isScanProgress = 1 :=
  ⟨by decide, by decide⟩

/-- Claim C4 (amended). —  A selection-mode scan on an empty root sequence
fails with the no-selection error (mapped by `getUserFriendlyError` to
the user-facing "select the frames" message), publishes nothing, and
emits exactly one event before failing: the initial "Starting scan..."
progress event — in particular no completion event and no further
progress events. -/
theorem empty_selection_error_amended (m : OperationManager) (opId : Nat)
    (pageChildren : List ScanCtx) (times : Nat → Nat) (t0 fuel : Nat)
    (hact : m.isActive opId = true) :
    (scanImages m opId "selected" [] pageChildren times t0 fuel).error
        = some "No frames selected. Please select frames first." ∧
    (scanImages m opId "selected" [] pageChildren times t0 fuel).events
        = [.scanProgress "Starting scan..." 0 0 (.num 100)] ∧
    (scanImages m opId "selected" [] pageChildren times t0 fuel).published = none ∧
    getUserFriendlyError "No frames selected. Please select frames first."
      = "Please select the frames you want to scan, or switch to 'Entire Page' mode." := by
  unfold scanImages
  rw [hact]
  rw [if_neg (by decide : ¬((!true) = true))]
  rw [if_pos (⟨rfl, rfl⟩ : ("selected" = "selected" ∧ ([] : List ScanCtx).length = 0))]
  exact ⟨rfl, rfl, rfl, by decide⟩

/-- Claim C4 witness —: the amended theorem applied to a fresh manager. -/
theorem empty_selection_error_amended_witness :
    sampleMgr.isActive 7 = true ∧
      (scanImages sampleMgr 7 "selected" [] [] (fun _ => 0) 0 1).published = none :=
  ⟨by decide,
    (empty_selection_error_amended sampleMgr 7 [] (fun _ => 0) 0 1 (by decide)).2.2.1⟩

/-! ## Decimal-representation and name-resolution lemmas -/

theorem decVal_append_digit (xs : List Char) (d : Nat) (hd : d < 10) :
    decVal (xs ++ [digitChar d]) = decVal xs * 10 + d := by
  unfold decVal
  rw [List.foldl_append]
  simp only [List.foldl_cons, List.foldl_nil]
  congr 1
  have : (digitChar d).toNat = 48 + d := by
    unfold digitChar
    interval_cases d <;> decide
  omega

theorem decVal_core (n : Nat) : ∀ fuel, n ≤ fuel →
    decVal (natDecimalCore fuel n) = n := by
  induction n using Nat.strong_induction_on with
  | _ n ih =>
    intro fuel hfuel
    match fuel with
    | 0 =>
      interval_cases n
      rfl
    | fuel + 1 =>
      by_cases hn : n = 0
      · simp [natDecimalCore, hn, decVal]
      · rw [natDecimalCore]
        simp only [hn, if_false]
        rw [decVal_append_digit _ _ (Nat.mod_lt _ (by norm_num))]
        have hdiv : n / 10 < n := Nat.div_lt_self (Nat.pos_of_ne_zero hn) (by norm_num)
        rw [ih (n / 10) hdiv fuel (by omega)]
        omega

theorem decVal_natDecimal (n : Nat) : decVal (natDecimal n).data = n := by
  by_cases hn : n = 0
  · subst hn; decide
  · unfold natDecimal
    simp only [hn, if_false]
    exact decVal_core n n le_rfl

theorem natDecimal_injective : Function.Injective natDecimal := by
  intro a b h
  have hv : decVal (natDecimal a).data = decVal (natDecimal b).data := by rw [h]
  rwa [decVal_natDecimal, decVal_natDecimal] at hv

theorem suffixName_injective (base : String) :
    Function.Injective (suffixName base) := by
  intro j k h
  have hd : (natDecimal j).data = (natDecimal k).data := by
    have hdata := congrArg String.data h
    simpa [suffixName, String.data_append] using hdata
  exact natDecimal_injective (by
    cases hn : natDecimal j
    cases hm : natDecimal k
    rw [hn, hm] at hd
    simp only at hd
    simp [hn, hm, hd])

theorem resolveNameAux_mem (base : String) (names : List String) :
    ∀ fuel counter current,
      resolveNameAux base names fuel current counter ∈ names →
      current ∈ names ∧ ∀ i < fuel, suffixName base (counter + i) ∈ names := by
  intro fuel
  induction fuel with
  | zero => intro counter current h; exact ⟨h, fun i hi => absurd hi (by omega)⟩
  | succ fuel ih =>
    intro counter current h
    rw [resolveNameAux] at h
    by_cases hcur : current ∈ names
    · rw [if_pos hcur] at h
      obtain ⟨h1, h2⟩ := ih (counter + 1) (suffixName base counter) h
      refine ⟨hcur, fun i hi => ?_⟩
      match i with
      | 0 => simpa using h1
      | i + 1 =>
        have hh := h2 i (by omega)
        convert hh using 2
        omega
    · rw [if_neg hcur] at h
      exact absurd h hcur

theorem resolveName_not_mem (base : String) (names : List String) :
    resolveName base names ∉ names := by
  intro hmem
  obtain ⟨-, hall⟩ := resolveNameAux_mem base names _ _ _ hmem
  set L := names.length with hL
  have hnodup : ((List.range (L + 1)).map (fun i => suffixName base (1 + i))).Nodup := by
    refine List.Nodup.map ?_ (List.nodup_range _)
    intro a b hab
    have := suffixName_injective base hab
    omega
  have hsub : ((List.range (L + 1)).map (fun i => suffixName base (1 + i))) ⊆ names := by
    intro s hs
    obtain ⟨i, hi, rfl⟩ := List.mem_map.mp hs
    exact hall i (by simpa using hi)
  have hcard1 : ((List.range (L + 1)).map
      (fun i => suffixName base (1 + i))).toFinset.card = L + 1 := by
    rw [List.toFinset_card_of_nodup hnodup]
    simp
  have hcard2 : ((List.range (L + 1)).map
      (fun i => suffixName base (1 + i))).toFinset.card ≤ names.toFinset.card := by
    apply Finset.card_le_card
    intro s hs
    rw [List.mem_toFinset] at hs ⊢
    exact hsub hs
  have hcard3 : names.toFinset.card ≤ L := List.toFinset_card_le names
  omega

theorem resolveNameAux_spec (base : String) (names : List String) :
    ∀ fuel counter current,
      resolveNameAux base names fuel current counter ∉ names →
      (resolveNameAux base names fuel current counter = current ∧ current ∉ names) ∨
      (∃ k, counter ≤ k ∧
        resolveNameAux base names fuel current counter = suffixName base k ∧
        current ∈ names ∧ ∀ j, counter ≤ j → j < k → suffixName base j ∈ names) := by
  intro fuel
  induction fuel with
  | zero => intro counter current h; exact .inl ⟨rfl, h⟩
  | succ fuel ih =>
    intro counter current h
    rw [resolveNameAux] at h ⊢
    by_cases hcur : current ∈ names
    · rw [if_pos hcur] at h ⊢
      rcases ih (counter + 1) (suffixName base counter) h with
        ⟨heq, hnm⟩ | ⟨k, hk, heq, hin, hall⟩
      · exact .inr ⟨counter, le_rfl, heq, hcur,
          fun j h1 h2 => absurd (lt_of_le_of_lt h1 h2) (by omega)⟩
      · refine .inr ⟨k, by omega, heq, hcur, fun j h1 h2 => ?_⟩
        rcases Nat.eq_or_lt_of_le h1 with rfl | hlt
        · exact hin
        · exact hall j (by omega) h2
    · rw [if_neg hcur] at h ⊢
      exact .inl ⟨rfl, hcur⟩

/-- Full characterisation of the collision loop: a free base keeps the
base name; a taken base receives `base_k` for the *smallest* `k ≥ 1`
whose suffixed name is free. -/
theorem resolveName_spec (base : String) (names : List String) :
    (base ∉ names → resolveName base names = base) ∧
    (base ∈ names → ∃ k, 1 ≤ k ∧ resolveName base names = suffixName base k ∧
      suffixName base k ∉ names ∧ ∀ j, 1 ≤ j → j < k → suffixName base j ∈ names) := by
  constructor
  · intro hb
    unfold resolveName resolveNameAux
    simp [hb]
  · intro hb
    have hnm := resolveName_not_mem base names
    rcases resolveNameAux_spec base names (names.length + 1) 1 base hnm with
      ⟨heq, hnb⟩ | hr
    · exact absurd hb hnb
    · obtain ⟨k, hk, heq, -, hall⟩ := hr
      exact ⟨k, hk, heq, heq ▸ hnm, hall⟩

/-! ## Scan-fold machinery (claims C1, C2, C7) -/

theorem mapHas_iff (m : List (String × FoundImageInfo)) (k : String) :
    mapHas m k = true ↔ k ∈ m.map Prod.fst := by
  unfold mapHas
  rw [List.any_eq_true]
  constructor
  · rintro ⟨p, hp, he⟩
    exact List.mem_map.mpr ⟨p, hp, beq_iff_eq.mp he⟩
  · intro h
    obtain ⟨p, hp, rfl⟩ := List.mem_map.mp h
    exact ⟨p, hp, beq_iff_eq.mpr rfl⟩

theorem addCand_skip (m : OperationManager) (opId : Nat) (st : ScanState)
    (c : Candidate) (h : mapHas st.uniqueImages c.hash = true) :
    addCand m opId st c = st := by
  unfold addCand addUniqueImage
  rw [h]
  simp

theorem addCand_inactive (m : OperationManager) (opId : Nat) (st : ScanState)
    (c : Candidate) (hact : m.isActive opId = false) :
    addCand m opId st c = st := by
  unfold addCand addUniqueImage
  rw [hact]
  simp

theorem addCand_insert (m : OperationManager) (opId : Nat) (st : ScanState)
    (c : Candidate) (hact : m.isActive opId = true)
    (h : mapHas st.uniqueImages c.hash = false) :
    addCand m opId st c =
      { uniqueImages := st.uniqueImages ++ [(c.hash, candEntry st c)],
        existingNames := setAdd st.existingNames (candEntry st c).name } := by
  unfold addCand addUniqueImage mapSet
  rw [hact, h]
  simp [candEntry]

theorem setAdd_subset (s : List String) (x : String) : s ⊆ setAdd s x := by
  unfold setAdd
  by_cases h : x ∈ s <;> simp [h, List.subset_append_left]

theorem mem_setAdd (s : List String) (x : String) : x ∈ setAdd s x := by
  unfold setAdd
  by_cases h : x ∈ s <;> simp [h]

theorem scanInv_addCand (m : OperationManager) (opId : Nat) (st : ScanState)
    (c : Candidate) (hinv : ScanInv st) : ScanInv (addCand m opId st c) := by
  by_cases hact : m.isActive opId = true
  · by_cases h : mapHas st.uniqueImages c.hash = true
    · rw [addCand_skip m opId st c h]; exact hinv
    · rw [addCand_insert m opId st c hact (by simpa using h)]
      have hnm : (candEntry st c).name ∉ st.existingNames :=
        resolveName_not_mem _ _
      refine ⟨?_, ?_, ?_, ?_⟩
      · intro p hp
        rcases List.mem_append.mp hp with hp | hp
        · exact hinv.hashKey p hp
        · rcases List.mem_singleton.mp hp with rfl; rfl
      · simp only [List.map_append, List.map_cons, List.map_nil]
        rw [List.nodup_append]
        refine ⟨hinv.keyNodup, List.nodup_singleton _, ?_⟩
        intro a ha hb
        rcases List.mem_singleton.mp hb with rfl
        rw [← mapHas_iff] at ha
        simp [ha] at h
      · intro p hp
        rcases List.mem_append.mp hp with hp | hp
        · exact setAdd_subset _ _ (hinv.nameMem p hp)
        · rcases List.mem_singleton.mp hp with rfl
          exact mem_setAdd _ _
      · simp only [List.map_append, List.map_cons, List.map_nil]
        rw [List.nodup_append]
        refine ⟨hinv.nameNodup, List.nodup_singleton _, ?_⟩
        intro a ha hb
        rcases List.mem_singleton.mp hb with rfl
        obtain ⟨p, hp, hpa⟩ := List.mem_map.mp ha
        exact hnm (hpa ▸ hinv.nameMem p hp)
  · rw [addCand_inactive m opId st c (by simpa using hact)]; exact hinv

theorem scanInv_scanFold (m : OperationManager) (opId : Nat) :
    ∀ (cands : List Candidate) (st : ScanState), ScanInv st →
      ScanInv (scanFold m opId cands st) := by
  intro cands
  induction cands with
  | nil => intro st h; exact h
  | cons c t ih =>
    intro st h
    exact ih _ (scanInv_addCand m opId st c h)

theorem scanInv_empty : ScanInv ⟨[], []⟩ := by
  refine ⟨?_, ?_, ?_, ?_⟩ <;> simp


theorem scanFold_cons (m : OperationManager) (opId : Nat) (c : Candidate)
    (t : List Candidate) (st : ScanState) :
    scanFold m opId (c :: t) st = scanFold m opId t (addCand m opId st c) := rfl

theorem scanFold_append (m : OperationManager) (opId : Nat)
    (l1 l2 : List Candidate) (st : ScanState) :
    scanFold m opId (l1 ++ l2) st = scanFold m opId l2 (scanFold m opId l1 st) :=
  List.foldl_append ..

theorem scanFold_keys (m : OperationManager) (opId : Nat)
    (hact : m.isActive opId = true) :
    ∀ (cands : List Candidate) (st : ScanState),
      (scanFold m opId cands st).uniqueImages.map Prod.fst
        = st.uniqueImages.map Prod.fst ++
          firstNewHashes (st.uniqueImages.map Prod.fst) (cands.map Candidate.hash) := by
  intro cands
  induction cands with
  | nil => intro st; simp [scanFold, firstNewHashes]
  | cons c t ih =>
    intro st
    rw [List.map_cons, scanFold_cons]
    by_cases h : mapHas st.uniqueImages c.hash = true
    · rw [addCand_skip m opId st c h, firstNewHashes]
      rw [if_pos (mapHas_iff _ _ |>.mp h)]
      exact ih st
    · have h' : mapHas st.uniqueImages c.hash = false := by simpa using h
      rw [addCand_insert m opId st c hact h']
      rw [firstNewHashes, if_neg (fun hm => by rw [(mapHas_iff _ _).mpr hm] at h'; exact absurd h' (by simp))]
      have := ih { uniqueImages := st.uniqueImages ++ [(c.hash, candEntry st c)],
                   existingNames := setAdd st.existingNames (candEntry st c).name }
      simp only [List.map_append, List.map_cons, List.map_nil] at this
      rw [this]
      simp

theorem firstNewHashes_subset : ∀ (l seen : List String),
    firstNewHashes seen l ⊆ l := by
  intro l
  induction l with
  | nil => intro seen; simp [firstNewHashes]
  | cons h t ih =>
    intro seen
    rw [firstNewHashes]
    by_cases hm : h ∈ seen
    · rw [if_pos hm]
      exact (ih seen).trans (List.subset_cons_self _ _)
    · rw [if_neg hm]
      intro x hx
      rcases List.mem_cons.mp hx with rfl | hx
      · exact List.mem_cons_self _ _
      · exact List.mem_cons_of_mem _ (ih (seen ++ [h]) hx)

theorem firstNewHashes_eq_dedup : ∀ (l seen : List String),
    firstNewHashes seen l
      = firstOccurrenceDedup (l.filter (fun x => decide (x ∉ seen))) := by
  intro l
  induction l with
  | nil => intro seen; simp [firstNewHashes, List.filter_nil, firstOccurrenceDedup]
  | cons h t ih =>
    intro seen
    rw [firstNewHashes, List.filter_cons]
    by_cases hm : h ∈ seen
    · rw [if_pos hm, if_neg (by simpa using hm)]
      exact ih seen
    · rw [if_neg hm, if_pos (by simpa using hm)]
      rw [firstOccurrenceDedup, ih (seen ++ [h])]
      congr 2
      rw [List.filter_filter]
      apply List.filter_congr
      intro x _
      by_cases h1 : x ∈ seen <;> by_cases h2 : x = h <;>
        simp [h1, h2]

theorem firstNewHashes_nil (l : List String) :
    firstNewHashes [] l = firstOccurrenceDedup l := by
  rw [firstNewHashes_eq_dedup]
  congr 1
  apply List.filter_eq_self.mpr
  intro a _
  simp


theorem subset_addCand (m : OperationManager) (opId : Nat) (st : ScanState)
    (c : Candidate) : st.uniqueImages ⊆ (addCand m opId st c).uniqueImages := by
  by_cases hact : m.isActive opId = true
  · by_cases h : mapHas st.uniqueImages c.hash = true
    · rw [addCand_skip m opId st c h]
      exact List.Subset.refl _
    · rw [addCand_insert m opId st c hact (by simpa using h)]
      exact List.subset_append_left _ _
  · rw [addCand_inactive m opId st c (by simpa using hact)]
    exact List.Subset.refl _

theorem mem_scanFold (m : OperationManager) (opId : Nat) :
    ∀ (cands : List Candidate) (st : ScanState) (p : String × FoundImageInfo),
      p ∈ st.uniqueImages → p ∈ (scanFold m opId cands st).uniqueImages := by
  intro cands
  induction cands with
  | nil => intro st p hp; exact hp
  | cons c t ih =>
    intro st p hp
    exact ih _ p (subset_addCand m opId st c hp)

theorem scanFold_first_entry (m : OperationManager) (opId : Nat)
    (hact : m.isActive opId = true) (pre : List Candidate) (c : Candidate)
    (post : List Candidate) (st0 : ScanState)
    (hnew : c.hash ∉ pre.map Candidate.hash)
    (h0 : mapHas st0.uniqueImages c.hash = false) :
    (c.hash, candEntry (scanFold m opId pre st0) c)
      ∈ (scanFold m opId (pre ++ c :: post) st0).uniqueImages := by
  rw [scanFold_append, scanFold_cons]
  have hkeys := scanFold_keys m opId hact pre st0
  have hpre : mapHas (scanFold m opId pre st0).uniqueImages c.hash = false := by
    rw [← Bool.not_eq_true]
    intro hmem
    rw [mapHas_iff, hkeys, List.mem_append] at hmem
    rcases hmem with hmem | hmem
    · rw [← mapHas_iff] at hmem
      rw [hmem] at h0
      exact absurd h0 (by simp)
    · exact hnew (firstNewHashes_subset _ _ hmem)
  rw [addCand_insert m opId _ c hact hpre]
  exact mem_scanFold m opId post _ _
    (List.mem_append_right _ (List.mem_singleton.mpr rfl))


theorem scanFold_inactive (m : OperationManager) (opId : Nat)
    (hact : m.isActive opId = false) :
    ∀ (cands : List Candidate) (st : ScanState), scanFold m opId cands st = st := by
  intro cands
  induction cands with
  | nil => intro st; rfl
  | cons c t ih =>
    intro st
    rw [scanFold_cons, addCand_inactive m opId st c hact]
    exact ih st

theorem foldl_processPaint_eq (m : OperationManager) (opId : Nat) (node : Node)
    (anc : List Ancestor) :
    ∀ (paints : List Paint) (st : ScanState),
      paints.foldl (processPaint m opId node anc) st
        = (paintHashes paints).foldl
            (fun s h => addUniqueImage m opId h node anc s) st := by
  intro paints
  induction paints with
  | nil => intro st; rfl
  | cons p t ih =>
    intro st
    rw [List.foldl_cons]
    unfold paintHashes
    rw [List.filterMap_cons]
    by_cases hp : isImagePaint p = true
    · rw [hp]
      simp only [if_true]
      rw [List.foldl_cons]
      unfold processPaint
      rw [if_pos hp]
      exact ih _
    · have hp' : isImagePaint p = false := by simpa using hp
      rw [hp']
      simp only [Bool.false_eq_true, if_false]
      unfold processPaint
      rw [if_neg (by simp [hp'])]
      exact ih st

theorem checkNode_eq_fold (m : OperationManager) (opId : Nat) (node : Node)
    (anc : List Ancestor) (st : ScanState) :
    checkNodeForImages m opId node anc st
      = (ctxCandidates ⟨node, anc⟩).foldl (addCand m opId) st := by
  have key : ∀ (paints : List Paint) (s : ScanState),
      paints.foldl (processPaint m opId node anc) s
        = (paintHashes paints).foldl
            (fun x y => addCand m opId x ⟨y, node, anc⟩) s :=
    fun paints s => foldl_processPaint_eq m opId node anc paints s
  by_cases hact : m.isActive opId = true
  · unfold checkNodeForImages ctxCandidates nodeCandidates
    rw [if_neg (by simp [hact]), List.foldl_map, List.foldl_append]
    cases hf : node.fills with
    | none =>
      cases hs : node.strokes with
      | none => rfl
      | some strokes =>
        dsimp only
        by_cases hfind : (strokes.find? isImagePaint).isSome = true
        · rw [if_pos hfind, if_pos hfind]
          exact key strokes st
        · rw [if_neg hfind, if_neg hfind]
          rfl
    | some fills =>
      cases hs : node.strokes with
      | none =>
        dsimp only
        by_cases hfind : (fills.find? isImagePaint).isSome = true
        · rw [if_pos hfind, if_pos hfind]
          exact key fills st
        · rw [if_neg hfind, if_neg hfind]
          rfl
      | some strokes =>
        dsimp only
        by_cases hfind1 : (fills.find? isImagePaint).isSome = true
        · rw [if_pos hfind1, if_pos hfind1, key fills st]
          by_cases hfind2 : (strokes.find? isImagePaint).isSome = true
          · rw [if_pos hfind2, if_pos hfind2]
            exact key strokes _
          · rw [if_neg hfind2, if_neg hfind2]
            rfl
        · rw [if_neg hfind1, if_neg hfind1]
          dsimp only [List.foldl_nil]
          by_cases hfind2 : (strokes.find? isImagePaint).isSome = true
          · rw [if_pos hfind2, if_pos hfind2]
            exact key strokes st
          · rw [if_neg hfind2, if_neg hfind2]
            rfl
  · have hact' : m.isActive opId = false := by simpa using hact
    unfold checkNodeForImages
    rw [if_pos (by simp [hact'])]
    show st = scanFold m opId _ st
    rw [scanFold_inactive m opId hact']


theorem chunk_fold_fst_st (m : OperationManager) (opId : Nat) :
    ∀ (chunk : List ScanCtx) (p : ScanLoopState × List ScanCtx),
      (chunk.foldl (processOneNode m opId) p).1.st
        = scanFold m opId ((chunk.map ctxCandidates).flatten) p.1.st := by
  intro chunk
  induction chunk with
  | nil => intro p; rfl
  | cons c t ih =>
    intro p
    rw [List.foldl_cons, List.map_cons, List.flatten_cons, scanFold_append, ih]
    rw [show (processOneNode m opId p c).1.st
        = checkNodeForImages m opId c.node c.ancestors p.1.st from rfl]
    rw [checkNode_eq_fold]
    rfl

theorem chunk_fold_snd (m : OperationManager) (opId : Nat) :
    ∀ (chunk : List ScanCtx) (p : ScanLoopState × List ScanCtx),
      (chunk.foldl (processOneNode m opId) p).2
        = chunk.foldl (fun acc c => childCtxs c.node c.ancestors ++ acc) p.2 := by
  intro chunk
  induction chunk with
  | nil => intro p; rfl
  | cons c t ih =>
    intro p
    rw [List.foldl_cons, List.foldl_cons, ih]
    rfl

theorem scanLoop_fst_st (m : OperationManager) (opId : Nat) (times : Nat → Nat) :
    ∀ (fuel : Nat) (stack : List ScanCtx) (ls : ScanLoopState),
      (scanLoop m opId times fuel stack ls).1.st
        = scanFold m opId (scanCands m opId fuel stack) ls.st := by
  intro fuel
  induction fuel with
  | zero =>
    intro stack ls
    cases stack with
    | nil => rfl
    | cons a t => rfl
  | succ fuel ih =>
    intro stack ls
    cases stack with
    | nil => rfl
    | cons a t =>
      rw [scanLoop]
      unfold scanCands
      rw [scanOrder]
      by_cases hact : m.isActive opId = true
      · rw [if_neg (by simp [hact]), if_neg (by simp [hact])]
        dsimp only
        rw [ih]
        rw [List.map_append, List.flatten_append, scanFold_append]
        rw [chunk_fold_snd]
        congr 1
        rw [apply_ite ScanLoopState.st]
        dsimp only
        rw [ite_self]
        rw [chunk_fold_fst_st]
      · rw [if_pos (by simp [hact]), if_pos (by simp [hact])]
        dsimp only
        rfl


theorem scanImages_published_eq (m : OperationManager) (opId : Nat)
    (scanMode : String) (selection pageChildren : List ScanCtx)
    (times : Nat → Nat) (t0 fuel : Nat) (imgs : List FoundImageInfo)
    (hact : m.isActive opId = true)
    (hpub : (scanImages m opId scanMode selection pageChildren times t0 fuel).published
      = some imgs) :
    imgs = mapValues (scanFold m opId
      (scanCands m opId fuel
        ((if scanMode = "selected" then selection else pageChildren).reverse))
      ⟨[], []⟩).uniqueImages := by
  unfold scanImages at hpub
  rw [hact] at hpub
  rw [if_neg (by decide : ¬((!true) = true))] at hpub
  by_cases hsel : scanMode = "selected" ∧ selection.length = 0
  · rw [if_pos hsel] at hpub
    simp at hpub
  · rw [if_neg hsel] at hpub
    dsimp only at hpub
    rw [if_pos (rfl : (true : Bool) = true)] at hpub
    by_cases hmode : scanMode = "selected"
    · rw [hmode] at hpub ⊢
      rw [if_pos rfl] at hpub ⊢
      split at hpub
      · dsimp only at hpub
        have himgs := Option.some.inj hpub
        rw [← himgs]
        congr 2
        exact scanLoop_fst_st m opId times fuel _ _
      · simp at hpub
    · rw [if_neg hmode] at hpub ⊢
      split at hpub
      · dsimp only at hpub
        have himgs := Option.some.inj hpub
        rw [← himgs]
        congr 2
        exact scanLoop_fst_st m opId times fuel _ _
      · simp at hpub

/-! ## Claims C1, C2, C7 -/

/-- Claim C1. —  For every published scan result: the content hashes are
pairwise distinct, they are exactly the first occurrences of the
candidate-hash sequence in traversal order, and for every hash the
entry kept is the one built from the first candidate (node) that
carried it — later encounters are ignored. -/
theorem scan_dedup_first_occurrence_wins (m : OperationManager) (opId : Nat)
    (scanMode : String) (selection pageChildren : List ScanCtx)
    (times : Nat → Nat) (t0 fuel : Nat) (imgs : List FoundImageInfo)
    (hact : m.isActive opId = true)
    (hpub : (scanImages m opId scanMode selection pageChildren times t0 fuel).published
      = some imgs) :
    (imgs.map FoundImageInfo.hash).Nodup ∧
    imgs.map FoundImageInfo.hash
      = firstOccurrenceDedup
          ((scanCands m opId fuel
            ((if scanMode = "selected" then selection else pageChildren).reverse)).map
            Candidate.hash) ∧
    ∀ pre c post,
      scanCands m opId fuel
          ((if scanMode = "selected" then selection else pageChildren).reverse)
        = pre ++ c :: post →
      c.hash ∉ pre.map Candidate.hash →
      candEntry (scanFold m opId pre ⟨[], []⟩) c ∈ imgs := by
  have himgs := scanImages_published_eq m opId scanMode selection pageChildren
    times t0 fuel imgs hact hpub
  set cands := scanCands m opId fuel
    ((if scanMode = "selected" then selection else pageChildren).reverse) with hcd
  have hinv : ScanInv (scanFold m opId cands ⟨[], []⟩) :=
    scanInv_scanFold m opId cands ⟨[], []⟩ scanInv_empty
  have hmap : imgs.map FoundImageInfo.hash
      = (scanFold m opId cands ⟨[], []⟩).uniqueImages.map Prod.fst := by
    rw [himgs]
    unfold mapValues
    rw [List.map_map]
    exact List.map_congr_left (fun p hp => hinv.hashKey p hp)
  refine ⟨?_, ?_, ?_⟩
  · rw [hmap]; exact hinv.keyNodup
  · rw [hmap, scanFold_keys m opId hact cands ⟨[], []⟩]
    simp only [List.map_nil, List.nil_append]
    exact firstNewHashes_nil _
  · intro pre c post hsplit hnew
    have hmem := scanFold_first_entry m opId hact pre c post ⟨[], []⟩ hnew (by rfl)
    rw [← hsplit] at hmem
    rw [himgs]
    exact List.mem_map.mpr ⟨_, hmem, rfl⟩


/-- Claim C2 (amended). —  For every published scan result the display
names are pairwise distinct; each first-encountered hash's entry is
named by `resolveName` against the name set accumulated so far; and
`resolveName` keeps the base name iff it is not yet taken, otherwise it
returns `base_k` for the smallest `k ≥ 1` free at that point (the
claim's "the first entry keeps the base sanitized name" holds only when
the base is still free — see the counterexample). -/
theorem display_names_distinct_resolution (m : OperationManager) (opId : Nat)
    (scanMode : String) (selection pageChildren : List ScanCtx)
    (times : Nat → Nat) (t0 fuel : Nat) (imgs : List FoundImageInfo)
    (hact : m.isActive opId = true)
    (hpub : (scanImages m opId scanMode selection pageChildren times t0 fuel).published
      = some imgs) :
    (imgs.map FoundImageInfo.name).Nodup ∧
    (∀ pre c post,
      scanCands m opId fuel
          ((if scanMode = "selected" then selection else pageChildren).reverse)
        = pre ++ c :: post →
      c.hash ∉ pre.map Candidate.hash →
      ∃ e ∈ imgs, e.hash = c.hash ∧
        e.name = resolveName (baseNameOf c.node)
          ((scanFold m opId pre ⟨[], []⟩).existingNames)) ∧
    (∀ (base : String) (names : List String),
      (base ∉ names → resolveName base names = base) ∧
      (base ∈ names → ∃ k, 1 ≤ k ∧ resolveName base names = suffixName base k ∧
        suffixName base k ∉ names ∧
        ∀ j, 1 ≤ j → j < k → suffixName base j ∈ names)) := by
  have himgs := scanImages_published_eq m opId scanMode selection pageChildren
    times t0 fuel imgs hact hpub
  set cands := scanCands m opId fuel
    ((if scanMode = "selected" then selection else pageChildren).reverse) with hcd
  have hinv : ScanInv (scanFold m opId cands ⟨[], []⟩) :=
    scanInv_scanFold m opId cands ⟨[], []⟩ scanInv_empty
  refine ⟨?_, ?_, fun base names => resolveName_spec base names⟩
  · rw [himgs]
    unfold mapValues
    rw [List.map_map]
    exact hinv.nameNodup
  · intro pre c post hsplit hnew
    have hmem := scanFold_first_entry m opId hact pre c post ⟨[], []⟩ hnew (by rfl)
    rw [← hsplit] at hmem
    refine ⟨candEntry (scanFold m opId pre ⟨[], []⟩) c, ?_, rfl, rfl⟩
    rw [himgs]
    exact List.mem_map.mpr ⟨_, hmem, rfl⟩

theorem isContainerType_iff (t : String) :
    isContainerType t = true ↔
      (t = "FRAME" ∨ t = "COMPONENT" ∨ t = "INSTANCE" ∨ t = "COMPONENT_SET") := by
  unfold isContainerType
  simp only [Bool.or_eq_true, beq_iff_eq]
  tauto

theorem computeFrameName_characterization : ∀ (walk : List Ancestor),
    (walk.find? stopsWalk = none → computeFrameName walk = "Page") ∧
    (∀ nm t, walk.find? stopsWalk = some (nm, t) →
      computeFrameName walk = if isContainerType t then sanitizeFileName nm else "Page") := by
  intro walk
  induction walk with
  | nil => exact ⟨fun _ => rfl, fun nm t h => by simp [List.find?] at h⟩
  | cons a rest ih =>
    obtain ⟨nmA, tA⟩ := a
    by_cases hstop : stopsWalk (nmA, tA) = true
    · refine ⟨fun h => ?_, fun nm t h => ?_⟩
      · rw [List.find?_cons, hstop] at h
        exact absurd h (by simp)
      · rw [List.find?_cons, hstop] at h
        have hinj := Option.some.inj h
        have hnm : nmA = nm := congrArg Prod.fst hinj
        have ht : tA = t := congrArg Prod.snd hinj
        subst hnm
        subst ht
        rw [computeFrameName]
        by_cases hc : isContainerType tA = true
        · rw [if_pos (isContainerType_iff tA |>.mp hc), if_pos hc]
        · have hnc : ¬(tA = "FRAME" ∨ tA = "COMPONENT" ∨ tA = "INSTANCE" ∨ tA = "COMPONENT_SET") :=
            fun hcontr => hc (isContainerType_iff tA |>.mpr hcontr)
          have hpage : tA = "PAGE" := by
            unfold stopsWalk at hstop
            rcases Bool.or_eq_true _ _ |>.mp hstop with h1 | h1
            · exact absurd h1 hc
            · simpa [beq_iff_eq] using h1
          rw [if_neg hnc, if_pos hpage, if_neg hc]
    · have hstop2 : stopsWalk (nmA, tA) = false := by simpa using hstop
      have hnc : ¬(tA = "FRAME" ∨ tA = "COMPONENT" ∨ tA = "INSTANCE" ∨ tA = "COMPONENT_SET") := by
        intro hcontr
        have hct : isContainerType tA = true := isContainerType_iff tA |>.mpr hcontr
        unfold stopsWalk at hstop2
        rw [hct] at hstop2
        simp at hstop2
      have hnp : ¬(tA = "PAGE") := by
        intro hcontr
        unfold stopsWalk at hstop2
        rw [hcontr] at hstop2
        simp at hstop2
      refine ⟨fun h => ?_, fun nm t h => ?_⟩
      · rw [List.find?_cons, hstop2] at h
        rw [computeFrameName, if_neg hnc, if_neg hnp]
        exact ih.1 h
      · rw [List.find?_cons, hstop2] at h
        rw [computeFrameName, if_neg hnc, if_neg hnp]
        exact ih.2 nm t h

/-- Claim C7 (amended). —  Every first-encountered candidate's entry
records as `containerName` the result of the walk over the chain
*starting at the node itself*: the nearest link whose type is FRAME,
COMPONENT, INSTANCE or COMPONENT_SET supplies its sanitized name, with
"Page" as fallback when the page boundary (or the chain end) is reached
first.  The second conjunct characterises that walk via `find?`. -/
theorem container_name_nearest_amended (m : OperationManager) (opId : Nat)
    (scanMode : String) (selection pageChildren : List ScanCtx)
    (times : Nat → Nat) (t0 fuel : Nat) (imgs : List FoundImageInfo)
    (hact : m.isActive opId = true)
    (hpub : (scanImages m opId scanMode selection pageChildren times t0 fuel).published
      = some imgs) :
    (∀ pre c post,
      scanCands m opId fuel
          ((if scanMode = "selected" then selection else pageChildren).reverse)
        = pre ++ c :: post →
      c.hash ∉ pre.map Candidate.hash →
      ∃ e ∈ imgs, e.hash = c.hash ∧
        e.frame = computeFrameName ((c.node.name, c.node.ntype) :: c.ancestors)) ∧
    (∀ walk : List Ancestor,
      (walk.find? stopsWalk = none → computeFrameName walk = "Page") ∧
      (∀ nm t, walk.find? stopsWalk = some (nm, t) →
        computeFrameName walk
          = if isContainerType t then sanitizeFileName nm else "Page")) := by
  have himgs := scanImages_published_eq m opId scanMode selection pageChildren
    times t0 fuel imgs hact hpub
  constructor
  · intro pre c post hsplit hnew
    have hmem := scanFold_first_entry m opId hact pre c post ⟨[], []⟩ hnew (by rfl)
    rw [← hsplit] at hmem
    refine ⟨candEntry (scanFold m opId pre ⟨[], []⟩) c, ?_, rfl, rfl⟩
    rw [himgs]
    exact List.mem_map.mpr ⟨_, hmem, rfl⟩
  · exact computeFrameName_characterization

/-- Claim C2 counterexample. —  Scanning nodes named "a", "a", "a_1" (with
distinct hashes) yields names `a`, `a_1`, `a_1_1`: the entry from the
node named "a_1" is the *first* (and only) entry with base name "a_1",
yet it does not keep the base name — the suffixed name of the second
"a" node already occupies it.  This refutes "the first entry keeps the
base sanitized name". -/
theorem display_name_base_counterexample :
    (scanImages sampleMgr 7 "entire" [] [⟨collisionFrame, [("Page 1", "PAGE")]⟩]
        (fun _ => 0) 0 10).published
      = some [⟨"h1", "a", "F"⟩, ⟨"h2", "a_1", "F"⟩, ⟨"h3", "a_1_1", "F"⟩] ∧
    baseNameOf nodeA3 = "a_1" ∧
    ("a_1_1" : String) ≠ "a_1" :=
  ⟨by decide, by decide, by decide⟩

/-- Claim C1 witness —: two siblings referencing hash H1 yield exactly one
entry, named from the first sibling; the theorem applied there. -/
theorem scan_dedup_first_occurrence_wins_witness :
    (scanImages sampleMgr 7 "entire" [] [⟨dupFrame, [("Page 1", "PAGE")]⟩]
        (fun _ => 0) 0 10).published
      = some [⟨"H1", "A", "F"⟩] ∧
    (([(⟨"H1", "A", "F"⟩ : FoundImageInfo)]).map FoundImageInfo.hash).Nodup :=
  ⟨by decide,
    (scan_dedup_first_occurrence_wins sampleMgr 7 "entire" []
      [⟨dupFrame, [("Page 1", "PAGE")]⟩] (fun _ => 0) 0 10 [⟨"H1", "A", "F"⟩]
      (by decide) (by decide)).1⟩

/-- Claim C2 witness —: the amended theorem applied to the collision
sample. -/
theorem display_names_distinct_resolution_witness :
    (scanImages sampleMgr 7 "entire" [] [⟨collisionFrame, [("Page 1", "PAGE")]⟩]
        (fun _ => 0) 0 10).published
      = some [⟨"h1", "a", "F"⟩, ⟨"h2", "a_1", "F"⟩, ⟨"h3", "a_1_1", "F"⟩] ∧
    (([⟨"h1", "a", "F"⟩, ⟨"h2", "a_1", "F"⟩,
        (⟨"h3", "a_1_1", "F"⟩ : FoundImageInfo)]).map FoundImageInfo.name).Nodup :=
  ⟨by decide,
    (display_names_distinct_resolution sampleMgr 7 "entire" []
      [⟨collisionFrame, [("Page 1", "PAGE")]⟩] (fun _ => 0) 0 10
      [⟨"h1", "a", "F"⟩, ⟨"h2", "a_1", "F"⟩, ⟨"h3", "a_1_1", "F"⟩]
      (by decide) (by decide)).1⟩

/-- Claim C7 counterexample. —  An image-filled node that is itself an
INSTANCE directly inside the frame "Hero" records `containerName =
"Inst"` — its own name — while the claim (nearest strictly-enclosing
frame/component/component-set ancestor, the spec-side
`claimedContainerName`) demands "Hero": the source walk starts at the
node itself and also accepts the INSTANCE type. -/
theorem container_name_instance_counterexample :
    (scanImages sampleMgr 7 "entire" [] [⟨heroFrame2, [("Page 1", "PAGE")]⟩]
        (fun _ => 0) 0 10).published
      = some [⟨"H9", "Inst", "Inst"⟩] ∧
    claimedContainerName [("Hero", "FRAME"), ("Page 1", "PAGE")] = "Hero" ∧
    ("Inst" : String) ≠ "Hero" :=
  ⟨by decide, by decide, by decide⟩

/-- Claim C7 witness —: the claim's own scenario — "Icon" with image fill
H1 nested two levels inside frame "Hero" with 3 children — published as
`{identity H1, displayName "Icon", containerName "Hero"}`; the amended
theorem applied at its first candidate. -/
theorem container_name_nearest_amended_witness :
    (scanImages sampleMgr 7 "entire" [] [⟨heroNode, [("Page 1", "PAGE")]⟩]
        (fun _ => 0) 0 10).published
      = some [⟨"H1", "Icon", "Hero"⟩] ∧
    computeFrameName [("Icon", "RECTANGLE"), ("Group", "GROUP"),
        ("Hero", "FRAME"), ("Page 1", "PAGE")] = "Hero" ∧
    (∃ e ∈ ([⟨"H1", "Icon", "Hero"⟩] : List FoundImageInfo), e.hash = "H1" ∧
      e.frame = computeFrameName [("Icon", "RECTANGLE"), ("Group", "GROUP"),
        ("Hero", "FRAME"), ("Page 1", "PAGE")]) :=
  ⟨by decide, by decide,
    (container_name_nearest_amended sampleMgr 7 "entire" []
      [⟨heroNode, [("Page 1", "PAGE")]⟩] (fun _ => 0) 0 10 [⟨"H1", "Icon", "Hero"⟩]
      (by decide) (by decide)).1 []
      ⟨"H1", iconNode, [("Group", "GROUP"), ("Hero", "FRAME"), ("Page 1", "PAGE")]⟩
      [] (by rfl) (by decide)⟩

/-! ## Fetch machinery (claims C8, C10) -/

theorem fetchOne_eq (host : String → Option HostImage) (m : OperationManager)
    (opId : Nat) (info : FoundImageInfo) (hact : m.isActive opId = true) :
    fetchOne host m opId info
      = match fetchAttempt host info with
        | .ok v => .ok v
        | .error e => .error ("Failed to fetch after " ++ natDecimal MAX_RETRY_ATTEMPTS ++
            " attempts: " ++ e) := by
  cases h : fetchAttempt host info with
  | ok v => simp [fetchOne, MAX_RETRY_ATTEMPTS, fetchRetry, h]
  | error e => simp [fetchOne, MAX_RETRY_ATTEMPTS, fetchRetry, h, hact]

theorem fetchAttempt_hash (host : String → Option HostImage)
    (info : FoundImageInfo) (v : FetchedImageInfo)
    (h : fetchAttempt host info = .ok v) :
    v.hash = info.hash ∧ oversizeHost host info.hash = false ∧
      (host info.hash).isSome = true := by
  unfold fetchAttempt at h
  unfold oversizeHost
  cases hh : host info.hash with
  | none =>
    rw [hh] at h
    exact absurd h (by simp)
  | some img =>
    rw [hh] at h
    dsimp only at h ⊢
    by_cases hsz : img.bytes.len > MAX_FILE_SIZE
    · rw [if_pos hsz] at h; exact absurd h (by simp)
    · rw [if_neg hsz] at h
      have := Except.ok.inj h
      refine ⟨by rw [← this], by simp [hsz], by simp⟩

theorem fetchOne_ok_inv (host : String → Option HostImage) (m : OperationManager)
    (opId : Nat) (info : FoundImageInfo) (v : FetchedImageInfo)
    (hact : m.isActive opId = true)
    (h : fetchOne host m opId info = .ok v) :
    v.hash = info.hash ∧ oversizeHost host info.hash = false ∧
      (host info.hash).isSome = true := by
  rw [fetchOne_eq host m opId info hact] at h
  cases ha : fetchAttempt host info with
  | ok w =>
    rw [ha] at h
    have := Except.ok.inj h
    exact this ▸ fetchAttempt_hash host info w ha
  | error e => rw [ha] at h; exact absurd h (by simp)

theorem fetchFails_iff (host : String → Option HostImage) (m : OperationManager)
    (opId : Nat) (info : FoundImageInfo) (hact : m.isActive opId = true) :
    fetchFails host m opId info
      = (!((host info.hash).isSome) || oversizeHost host info.hash) := by
  unfold fetchFails
  rw [fetchOne_eq host m opId info hact]
  unfold fetchAttempt oversizeHost
  cases hh : host info.hash with
  | none => simp [Except.toBool]
  | some img =>
    dsimp only
    by_cases hsz : img.bytes.len > MAX_FILE_SIZE
    · rw [if_pos hsz]; simp [hsz, Except.toBool]
    · rw [if_neg hsz]; simp [hsz, Except.toBool]


theorem toBool_eq_isSome_toOption (r : Except String FetchedImageInfo) :
    r.toOption.isSome = r.toBool := by
  cases r <;> rfl

theorem batchEvents_shape (host : String → Option HostImage)
    (m : OperationManager) (opId : Nat) (total : Nat) (elapsedOf : Nat → ℚ) :
    ∀ (fuel : Nat) (remaining : List FoundImageInfo) (i batchIdx : Nat),
      ∀ e ∈ batchEvents host m opId total elapsedOf fuel remaining i batchIdx,
        (e.isBatchReady || e.isFetchingProgress) = true := by
  intro fuel
  induction fuel with
  | zero =>
    intro remaining i batchIdx e he
    cases remaining with
    | nil => simp [batchEvents] at he
    | cons a t => simp [batchEvents] at he
  | succ fuel ih =>
    intro remaining i batchIdx e he
    cases remaining with
    | nil => simp [batchEvents] at he
    | cons a t =>
      rw [batchEvents] at he
      rw [List.mem_append] at he
      rcases he with he | he
      · split at he
        · rcases List.mem_singleton.mp he with rfl
          rfl
        · simp at he
      · rw [List.singleton_append, List.mem_cons] at he
        rcases he with rfl | he
        · rfl
        · exact ih _ _ _ e he

theorem batchEvents_ready_nonempty (host : String → Option HostImage)
    (m : OperationManager) (opId : Nat) (total : Nat) (elapsedOf : Nat → ℚ) :
    ∀ (fuel : Nat) (remaining : List FoundImageInfo) (i batchIdx : Nat),
      ∀ e ∈ batchEvents host m opId total elapsedOf fuel remaining i batchIdx,
        e.isBatchReady = true → e.batchImages ≠ [] := by
  intro fuel
  induction fuel with
  | zero =>
    intro remaining i batchIdx e he
    cases remaining with
    | nil => simp [batchEvents] at he
    | cons a t => simp [batchEvents] at he
  | succ fuel ih =>
    intro remaining i batchIdx e he hbr
    cases remaining with
    | nil => simp [batchEvents] at he
    | cons a t =>
      rw [batchEvents] at he
      rw [List.mem_append] at he
      rcases he with he | he
      · split at he
        next hlen =>
          rcases List.mem_singleton.mp he with rfl
          simp only [Event.batchImages]
          intro hcontr
          rw [hcontr] at hlen
          simp at hlen
        next => simp at he
      · rw [List.singleton_append, List.mem_cons] at he
        rcases he with rfl | he
        · simp [Event.isBatchReady] at hbr
        · exact ih _ _ _ e he hbr

theorem batchEvents_ready_origin (host : String → Option HostImage)
    (m : OperationManager) (opId : Nat) (total : Nat) (elapsedOf : Nat → ℚ) :
    ∀ (fuel : Nat) (remaining : List FoundImageInfo) (i batchIdx : Nat),
      ∀ e ∈ batchEvents host m opId total elapsedOf fuel remaining i batchIdx,
        e.isBatchReady = true →
        ∀ f ∈ e.batchImages, ∃ info ∈ remaining, fetchOne host m opId info = .ok f := by
  intro fuel
  induction fuel with
  | zero =>
    intro remaining i batchIdx e he
    cases remaining with
    | nil => simp [batchEvents] at he
    | cons a t => simp [batchEvents] at he
  | succ fuel ih =>
    intro remaining i batchIdx e he hbr f hf
    cases remaining with
    | nil => simp [batchEvents] at he
    | cons a t =>
      rw [batchEvents] at he
      rw [List.mem_append] at he
      rcases he with he | he
      · split at he
        next hlen =>
          rcases List.mem_singleton.mp he with rfl
          simp only [Event.batchImages] at hf
          obtain ⟨r, hr, hro⟩ := List.mem_filterMap.mp hf
          obtain ⟨info, hinfo, rfl⟩ := List.mem_map.mp hr
          refine ⟨info, List.take_subset _ _ hinfo, ?_⟩
          cases hfo : fetchOne host m opId info with
          | ok v => rw [hfo] at hro; cases Option.some.inj hro; rfl
          | error e2 => rw [hfo] at hro; exact absurd hro (by simp [Except.toOption])
        next => simp at he
      · rw [List.singleton_append, List.mem_cons] at he
        rcases he with rfl | he
        · simp [Event.isBatchReady] at hbr
        · obtain ⟨info, hinfo, hfo⟩ := ih _ _ _ e he hbr f hf
          exact ⟨info, List.drop_subset _ _ hinfo, hfo⟩


theorem batchEvents_countP_ready (host : String → Option HostImage)
    (m : OperationManager) (opId : Nat) (total : Nat) (elapsedOf : Nat → ℚ) :
    ∀ (fuel : Nat) (remaining : List FoundImageInfo) (i batchIdx : Nat),
      (batchEvents host m opId total elapsedOf fuel remaining i batchIdx).countP
          Event.isBatchReady
        = (chunksOf fuel remaining).countP
            (fun b => b.any (fun info => (fetchOne host m opId info).toBool)) := by
  intro fuel
  induction fuel with
  | zero =>
    intro remaining i batchIdx
    cases remaining with
    | nil => rfl
    | cons a t => rfl
  | succ fuel ih =>
    intro remaining i batchIdx
    cases remaining with
    | nil => rfl
    | cons a t =>
      rw [batchEvents, chunksOf]
      have hnonempty_iff :
          0 < (((List.take BATCH_SIZE (a :: t)).map (fetchOne host m opId)).filterMap
              Except.toOption).length
            ↔ (List.take BATCH_SIZE (a :: t)).any
                (fun info => (fetchOne host m opId info).toBool) = true := by
        rw [List.length_pos_iff_exists_mem]
        constructor
        · rintro ⟨f, hf⟩
          obtain ⟨r, hr, hro⟩ := List.mem_filterMap.mp hf
          obtain ⟨info, hinfo, rfl⟩ := List.mem_map.mp hr
          refine List.any_eq_true.mpr ⟨info, hinfo, ?_⟩
          rw [← toBool_eq_isSome_toOption, hro]
          rfl
        · intro hany
          obtain ⟨info, hinfo, hb⟩ := List.any_eq_true.mp hany
          rw [← toBool_eq_isSome_toOption] at hb
          obtain ⟨v, hv⟩ := Option.isSome_iff_exists.mp hb
          exact ⟨v, List.mem_filterMap.mpr ⟨fetchOne host m opId info,
            List.mem_map.mpr ⟨info, hinfo, rfl⟩, hv⟩⟩
      by_cases hb : (List.take BATCH_SIZE (a :: t)).any
          (fun info => (fetchOne host m opId info).toBool) = true
      · rw [if_pos (hnonempty_iff.mpr hb)]
        simp [List.countP_append, List.countP_cons, Event.isBatchReady,
          Event.isFetchingProgress, hb, ih]
      · have hbf : (List.take BATCH_SIZE (a :: t)).any
            (fun info => (fetchOne host m opId info).toBool) = false := by
          simpa using hb
        rw [if_neg (hnonempty_iff.not.mpr hb)]
        simp [List.countP_append, List.countP_cons, Event.isBatchReady,
          Event.isFetchingProgress, hbf, ih]

theorem batchEvents_countP_progress (host : String → Option HostImage)
    (m : OperationManager) (opId : Nat) (total : Nat) (elapsedOf : Nat → ℚ) :
    ∀ (fuel : Nat) (remaining : List FoundImageInfo) (i batchIdx : Nat),
      (batchEvents host m opId total elapsedOf fuel remaining i batchIdx).countP
          Event.isFetchingProgress
        = (chunksOf fuel remaining).length := by
  intro fuel
  induction fuel with
  | zero =>
    intro remaining i batchIdx
    cases remaining with
    | nil => rfl
    | cons a t => rfl
  | succ fuel ih =>
    intro remaining i batchIdx
    cases remaining with
    | nil => rfl
    | cons a t =>
      rw [batchEvents, chunksOf]
      split
      · simp [List.countP_append, List.countP_cons, Event.isFetchingProgress,
          Event.isBatchReady, ih]
      · simp [List.countP_append, List.countP_cons, Event.isFetchingProgress,
          ih]


theorem fetchLoop_spec (host : String → Option HostImage) (m : OperationManager)
    (opId : Nat) (total : Nat) (elapsedOf : Nat → ℚ)
    (hact : m.isActive opId = true) :
    ∀ (fuel : Nat) (remaining : List FoundImageInfo)
      (i batchIdx failedCount : Nat) (events : List Event),
      remaining.length < fuel →
      fetchLoop host m opId total elapsedOf fuel remaining i batchIdx failedCount events
        = (events ++ batchEvents host m opId total elapsedOf fuel remaining i batchIdx,
           failedCount + remaining.countP (fetchFails host m opId), none) := by
  intro fuel
  induction fuel with
  | zero =>
    intro remaining i batchIdx failedCount events hlen
    omega
  | succ fuel ih =>
    intro remaining i batchIdx failedCount events hlen
    cases remaining with
    | nil => simp [fetchLoop, batchEvents]
    | cons a t =>
      rw [fetchLoop, batchEvents]
      rw [if_neg (by simp [hact])]
      dsimp only
      have hlen2 : (List.drop BATCH_SIZE (a :: t)).length < fuel := by
        rw [List.length_drop]
        simp only [List.length_cons] at hlen ⊢
        have : BATCH_SIZE = 10 := rfl
        omega
      rw [ih (List.drop BATCH_SIZE (a :: t)) (i + BATCH_SIZE) (batchIdx + 1) _ _ hlen2]
      have hcount : (failedCount + ((List.take BATCH_SIZE (a :: t)).map
            (fetchOne host m opId)).countP (fun r => !r.toBool))
            + (List.drop BATCH_SIZE (a :: t)).countP (fetchFails host m opId)
          = failedCount + (a :: t).countP (fetchFails host m opId) := by
        rw [List.countP_map]
        have htd : (a :: t).countP (fetchFails host m opId)
            = (List.take BATCH_SIZE (a :: t)).countP (fetchFails host m opId)
              + (List.drop BATCH_SIZE (a :: t)).countP (fetchFails host m opId) := by
          conv_lhs => rw [← List.take_append_drop BATCH_SIZE (a :: t)]
          rw [List.countP_append]
        rw [htd]
        have : ((fun r => !Except.toBool r) ∘ fetchOne host m opId)
            = fetchFails host m opId := rfl
        rw [this]
        omega
      rw [Prod.mk.injEq, Prod.mk.injEq]
      refine ⟨?_, hcount, rfl⟩
      split
      · rw [List.append_assoc, List.append_assoc]
      · rw [List.nil_append, List.append_assoc]


theorem fetchImageBytes_eq (host : String → Option HostImage)
    (m : OperationManager) (opId : Nat) (images : List FoundImageInfo)
    (downloadType : String) (formats : List String) (renamePattern : String)
    (elapsedOf : Nat → ℚ) (hact : m.isActive opId = true) :
    fetchImageBytes host m opId images downloadType formats renamePattern elapsedOf
      = { events :=
            (if images.countP (fetchFails host m opId) > 0 then
              ([.downloadProgress "Preparing..." 0 0 images.length none,
                .downloadStart downloadType formats renamePattern images.length] ++
                batchEvents host m opId images.length elapsedOf
                  (images.length + 1) images 0 0) ++
              [.notifyWarning (warningText (images.countP (fetchFails host m opId)))]
            else
              ([.downloadProgress "Preparing..." 0 0 images.length none,
                .downloadStart downloadType formats renamePattern images.length] ++
                batchEvents host m opId images.length elapsedOf
                  (images.length + 1) images 0 0)) ++
            [.downloadProgress "Sending data to UI..." 100
              (images.length - images.countP (fetchFails host m opId))
              images.length (some "Done"),
             .downloadFinish],
          error := none,
          failedCount := images.countP (fetchFails host m opId) } := by
  unfold fetchImageBytes
  rw [hact]
  rw [if_neg (by decide : ¬((!true) = true))]
  dsimp only
  rw [fetchLoop_spec host m opId images.length elapsedOf hact (images.length + 1)
    images 0 0 0 _ (by omega)]
  dsimp only
  rw [if_pos (rfl : (true : Bool) = true)]
  rw [Nat.zero_add]


theorem shape_not_warning (e : Event)
    (h : (e.isBatchReady || e.isFetchingProgress) = true) :
    e.isNotifyWarning = false := by
  cases e <;> try rfl
  simp [Event.isBatchReady, Event.isFetchingProgress] at h

theorem fetchFails_eq_oversize (host : String → Option HostImage)
    (m : OperationManager) (opId : Nat) (images : List FoundImageInfo)
    (hact : m.isActive opId = true)
    (hres : ∀ info ∈ images, (host info.hash).isSome = true) :
    images.countP (fetchFails host m opId)
      = images.countP (fun info => oversizeHost host info.hash) := by
  apply List.countP_congr
  intro info hinfo
  rw [fetchFails_iff host m opId info hact, hres info hinfo]
  simp


/-- Claim C8. —  For a fetch in which every requested hash resolves and
exactly one requested image's byte length exceeds the size ceiling: no
error is thrown, the failure count is 1, no batch-ready event carries an
item whose hash is oversize (so the failing item is in none of them),
and the trace ends with exactly one aggregated warning (naming the count
and the ceiling via `warningText`) emitted after every batch event,
followed by the final progress event reporting the successful count
(`total - 1`, eta "Done") and the completion event. -/
theorem fetch_oversize_single_failure (host : String → Option HostImage)
    (m : OperationManager) (opId : Nat) (images : List FoundImageInfo)
    (downloadType : String) (formats : List String) (renamePattern : String)
    (elapsedOf : Nat → ℚ) (hact : m.isActive opId = true)
    (hres : ∀ info ∈ images, (host info.hash).isSome = true)
    (hover : images.countP (fun info => oversizeHost host info.hash) = 1) :
    (fetchImageBytes host m opId images downloadType formats renamePattern
      elapsedOf).error = none ∧
    (fetchImageBytes host m opId images downloadType formats renamePattern
      elapsedOf).failedCount = 1 ∧
    (∀ e ∈ (fetchImageBytes host m opId images downloadType formats renamePattern
        elapsedOf).events, e.isBatchReady = true →
      ∀ f ∈ e.batchImages, oversizeHost host f.hash = false) ∧
    (∃ evPre,
      (fetchImageBytes host m opId images downloadType formats renamePattern
        elapsedOf).events
        = evPre ++ [.notifyWarning (warningText 1),
            .downloadProgress "Sending data to UI..." 100 (images.length - 1)
              images.length (some "Done"),
            .downloadFinish] ∧
      ∀ e ∈ evPre, e.isNotifyWarning = false) := by
  have hfail : images.countP (fetchFails host m opId) = 1 :=
    (fetchFails_eq_oversize host m opId images hact hres).trans hover
  rw [fetchImageBytes_eq host m opId images downloadType formats renamePattern
    elapsedOf hact]
  rw [hfail]
  rw [if_pos (by omega : (1 : Nat) > 0)]
  refine ⟨rfl, rfl, ?_, ?_⟩
  · intro e he hbr f hf
    dsimp only at he
    rw [List.mem_append, List.mem_append, List.mem_append] at he
    rcases he with ((he | he) | he) | he
    · rcases List.mem_cons.mp he with rfl | he
      · simp [Event.isBatchReady] at hbr
      · rcases List.mem_singleton.mp he with rfl
        simp [Event.isBatchReady] at hbr
    · obtain ⟨info, hinfo, hok⟩ := batchEvents_ready_origin host m opId
        images.length elapsedOf (images.length + 1) images 0 0 e he hbr f hf
      obtain ⟨hhash, hov, -⟩ := fetchOne_ok_inv host m opId info f hact hok
      rw [hhash]
      exact hov
    · rcases List.mem_singleton.mp he with rfl
      simp [Event.isBatchReady] at hbr
    · rcases List.mem_cons.mp he with rfl | he
      · simp [Event.isBatchReady] at hbr
      · rcases List.mem_singleton.mp he with rfl
        simp [Event.isBatchReady] at hbr
  · refine ⟨[Event.downloadProgress "Preparing..." 0 0 images.length none,
      Event.downloadStart downloadType formats renamePattern images.length] ++
      batchEvents host m opId images.length elapsedOf (images.length + 1) images 0 0,
      ?_, ?_⟩
    · rw [List.append_assoc, List.append_assoc]
      rfl
    · intro e he
      rw [List.mem_append] at he
      rcases he with he | he
      · rcases List.mem_cons.mp he with rfl | he
        · rfl
        · rcases List.mem_singleton.mp he with rfl
          rfl
      · exact shape_not_warning e (batchEvents_shape host m opId images.length
          elapsedOf (images.length + 1) images 0 0 e he)


/-- Claim C10. —  On an active fetch run, every emitted `imagesBatchReady`
event carries a non-empty list; the number of batch-ready events equals
the number of batches containing at least one successfully fetched item
(the "iff" as a count over the batch slicing `chunksOf`); and exactly
one per-batch progress event is emitted per batch regardless of its
outcome. -/
theorem batch_ready_iff_success (host : String → Option HostImage)
    (m : OperationManager) (opId : Nat) (images : List FoundImageInfo)
    (downloadType : String) (formats : List String) (renamePattern : String)
    (elapsedOf : Nat → ℚ) (hact : m.isActive opId = true) :
    (∀ e ∈ (fetchImageBytes host m opId images downloadType formats renamePattern
        elapsedOf).events, e.isBatchReady = true → e.batchImages ≠ []) ∧
    (fetchImageBytes host m opId images downloadType formats renamePattern
        elapsedOf).events.countP Event.isBatchReady
      = (chunksOf (images.length + 1) images).countP
          (fun b => b.any (fun info => (fetchOne host m opId info).toBool)) ∧
    (fetchImageBytes host m opId images downloadType formats renamePattern
        elapsedOf).events.countP Event.isFetchingProgress
      = (chunksOf (images.length + 1) images).length := by
  rw [fetchImageBytes_eq host m opId images downloadType formats renamePattern
    elapsedOf hact]
  dsimp only
  refine ⟨?_, ?_, ?_⟩
  · intro e he hbr
    rw [List.mem_append] at he
    rcases he with he | he
    · split at he
      · rw [List.mem_append] at he
        rcases he with he | he
        · rw [List.mem_append] at he
          rcases he with he | he
          · rcases List.mem_cons.mp he with rfl | he
            · simp [Event.isBatchReady] at hbr
            · rcases List.mem_singleton.mp he with rfl
              simp [Event.isBatchReady] at hbr
          · exact batchEvents_ready_nonempty host m opId images.length elapsedOf
              (images.length + 1) images 0 0 e he hbr
        · rcases List.mem_singleton.mp he with rfl
          simp [Event.isBatchReady] at hbr
      · rw [List.mem_append] at he
        rcases he with he | he
        · rcases List.mem_cons.mp he with rfl | he
          · simp [Event.isBatchReady] at hbr
          · rcases List.mem_singleton.mp he with rfl
            simp [Event.isBatchReady] at hbr
        · exact batchEvents_ready_nonempty host m opId images.length elapsedOf
            (images.length + 1) images 0 0 e he hbr
    · rcases List.mem_cons.mp he with rfl | he
      · simp [Event.isBatchReady] at hbr
      · rcases List.mem_singleton.mp he with rfl
        simp [Event.isBatchReady] at hbr
  · rw [List.countP_append]
    have hfinal : ([Event.downloadProgress "Sending data to UI..." 100
        (images.length - images.countP (fetchFails host m opId)) images.length
        (some "Done"), Event.downloadFinish]).countP Event.isBatchReady = 0 := rfl
    rw [hfinal]
    split
    · rw [List.countP_append, List.countP_append]
      rw [batchEvents_countP_ready]
      simp [Event.isBatchReady, List.countP_cons]
    · rw [List.countP_append]
      rw [batchEvents_countP_ready]
      simp [Event.isBatchReady, List.countP_cons]
  · rw [List.countP_append]
    have hfinal : ([Event.downloadProgress "Sending data to UI..." 100
        (images.length - images.countP (fetchFails host m opId)) images.length
        (some "Done"), Event.downloadFinish]).countP Event.isFetchingProgress = 0 := rfl
    rw [hfinal]
    split
    · rw [List.countP_append, List.countP_append]
      rw [batchEvents_countP_progress]
      simp [Event.isFetchingProgress, List.countP_cons]
    · rw [List.countP_append]
      rw [batchEvents_countP_progress]
      simp [Event.isFetchingProgress, List.countP_cons]


/-- Claim C8 witness —: the theorem applied to a two-image fetch where
`hB` resolves to a buffer one byte over the 100 MB ceiling. -/
theorem fetch_oversize_single_failure_witness :
    (∀ info ∈ [sampleImgA, sampleImgB], (sampleHost info.hash).isSome = true) ∧
    ([sampleImgA, sampleImgB].countP
      (fun info => oversizeHost sampleHost info.hash) = 1) ∧
    (fetchImageBytes sampleHost sampleMgr 7 [sampleImgA, sampleImgB] "zip" ["PNG"]
      "orig" (fun _ => 0)).failedCount = 1 :=
  ⟨by decide, by decide,
    (fetch_oversize_single_failure sampleHost sampleMgr 7 [sampleImgA, sampleImgB]
      "zip" ["PNG"] "orig" (fun _ => 0) (by decide) (by decide) (by decide)).2.1⟩

/-- Claim C10 witness —: the theorem applied to the same two-image fetch —
its single batch has one success, so exactly one batch-ready event. -/
theorem batch_ready_iff_success_witness :
    (fetchImageBytes sampleHost sampleMgr 7 [sampleImgA, sampleImgB] "zip" ["PNG"]
      "orig" (fun _ => 0)).events.countP Event.isBatchReady = 1 :=
  ((batch_ready_iff_success sampleHost sampleMgr 7 [sampleImgA, sampleImgB] "zip"
    ["PNG"] "orig" (fun _ => 0) (by decide)).2.1).trans (by decide)

end ExportMaster
